import Mathlib

/-!
# PebbleSequenceTimer: the per-second step sequencer and the clock display

A shallow embedding of `src/main.c`.  The file-scope variables of the program
become the fields of `State`; the calls into the host toolkit (vibration,
sleep, tick subscription, text layer) become an ordered list of `Event`s.
The step table, the completion action and the starting-step index are
gathered in `Config`, so that properties can be stated for every step table as
well as for the one the program ships (`shipped`).

C `int` counters are modelled by `Int`.  Signed overflow is undefined in C, so
the model describes the runs in which no counter leaves the `int` range; over
a step table with positive durations every counter of a run from the initial
state stays between `0` and the sum of the durations (`counters_in_range`).
-/

namespace PebbleSequenceTimer

/-! ## Data model (`main.c` lines 8-41) -/

/-- Type of vibration (`enum EVibe`). -/
inductive EVibe where
  | NONE
  | SHORT
  | LONG
  deriving DecidableEq, Repr

/-- A step in the sequence of steps (`struct Step`). -/
structure Step where
  secs : Int
  descr : String
  vibe : EVibe
  deriving DecidableEq, Repr

/-- Action at completion of the sequence (`struct Completion`). -/
structure Completion where
  nVibes : Int
  vibe : EVibe
  msSleep : Int
  deriving DecidableEq, Repr

/-- Steps in the sequence (`steps[]`). -/
def steps : List Step :=
  [ { secs := 5, descr := "Get Ready", vibe := EVibe.NONE },
    { secs := 30, descr := "Quad1", vibe := EVibe.LONG },
    { secs := 30, descr := "Quad2", vibe := EVibe.LONG },
    { secs := 30, descr := "Quad3", vibe := EVibe.LONG },
    { secs := 30, descr := "Quad4", vibe := EVibe.LONG } ]

/-- Action at completion of the sequence (`s_completion`). -/
def s_completion : Completion :=
  { nVibes := 4, vibe := EVibe.SHORT, msSleep := 333 }

/-- Number of steps, `sizeof(steps) / sizeof(struct Step)`. -/
def N_STEPS : Int := steps.length

/-- Index of the first step for which timing starts. -/
def START_STEP_IX : Int := 1

/-- The compile-time configuration of the program: the step table, the
completion action and the starting-step index. -/
structure Config where
  steps : List Step
  s_completion : Completion
  START_STEP_IX : Int
  deriving DecidableEq, Repr

/-- Number of steps of a configuration. -/
def Config.N_STEPS (cfg : Config) : Int := cfg.steps.length

/-- The configuration the program ships. -/
def shipped : Config :=
  { steps := steps, s_completion := s_completion, START_STEP_IX := START_STEP_IX }

/-- Modelled from the spec: the broken-down wall-clock time `struct tm` of the C
library, which the tick source delivers; only `tm_hour`, `tm_min` and `tm_sec`
are read by the program. -/
structure Tm where
  tm_sec : Nat
  tm_min : Nat
  tm_hour : Nat
  tm_mday : Nat
  tm_mon : Nat
  tm_year : Nat
  tm_wday : Nat
  tm_yday : Nat
  tm_isdst : Nat
  deriving DecidableEq, Repr

/-- A broken-down time whose clock fields are in the range the C library
documents (seconds up to 60 to allow a leap second). -/
def Tm.valid (t : Tm) : Prop :=
  t.tm_hour < 24 ∧ t.tm_min < 60 ∧ t.tm_sec ≤ 60

instance (t : Tm) : Decidable t.valid := by
  unfold Tm.valid
  infer_instance

/-- A time of day on a fixed date, for concrete runs. -/
def clock (h m s : Nat) : Tm :=
  { tm_sec := s, tm_min := m, tm_hour := h, tm_mday := 1, tm_mon := 0,
    tm_year := 115, tm_wday := 4, tm_yday := 0, tm_isdst := 0 }

/-- The file-scope and function-static variables of the program. `xm` is the
`static` local of `AmOrPm`. -/
structure State where
  s_curStep : Int
  s_stepSecsLeft : Int
  s_stepsSecs : Int
  s_startTime : Tm
  s_status_hdr_buffer : String
  xm : String
  deriving DecidableEq, Repr

/-- The state at process start: the initialisers of lines 37-44, with
zero-initialised `s_startTime` and `s_status_hdr_buffer`. -/
def State.init : State :=
  { s_curStep := 0, s_stepSecsLeft := 0, s_stepsSecs := 0,
    s_startTime := { tm_sec := 0, tm_min := 0, tm_hour := 0, tm_mday := 0, tm_mon := 0,
                     tm_year := 0, tm_wday := 0, tm_yday := 0, tm_isdst := 0 },
    s_status_hdr_buffer := "", xm := "p" }

/-- Tick granularity handed to the tick timer service. -/
inductive TimeUnits where
  | SECOND_UNIT
  | MINUTE_UNIT
  deriving DecidableEq, Repr

/-- The two tick callbacks of the program. -/
inductive Handler where
  | tick_handler
  | tick_handler_minute
  deriving DecidableEq, Repr

/-- Calls into the host toolkit, in the order the program makes them. -/
inductive Event where
  | vibes_long_pulse
  | vibes_short_pulse
  | psleep (ms : Int)
  | tick_timer_service_unsubscribe
  | tick_timer_service_subscribe (units : TimeUnits) (handler : Handler)
  | text_layer_set_text (text : String)
  deriving DecidableEq, Repr

/-! ## Library formatting -/

/-- Modelled from the spec: a clock field as `strftime` prints it, in decimal
and zero-padded to two digits. -/
def fmt_02d (n : Nat) : String :=
  if n < 100 then String.mk [Nat.digitChar (n / 10), Nat.digitChar (n % 10)] else Nat.repr n

/-- Modelled from the spec: the hour of the 12-hour clock, `%I` of `strftime`. -/
def hour12 (h : Nat) : Nat :=
  if h % 12 = 0 then 12 else h % 12

/-- Modelled from the spec: `strftime(_, sizeof("00:00"), "%I:%M", t)`; for a
valid time the text has the five characters the buffer holds. -/
def strftime_I_M (t : Tm) : String :=
  fmt_02d (hour12 t.tm_hour) ++ ":" ++ fmt_02d t.tm_min

/-- Modelled from the spec: `strftime(_, sizeof("00:00:00"), "%I:%M:%S", t)`;
for a valid time the text has the eight characters the buffer holds. -/
def strftime_I_M_S (t : Tm) : String :=
  fmt_02d (hour12 t.tm_hour) ++ ":" ++ fmt_02d t.tm_min ++ ":" ++ fmt_02d t.tm_sec

/-- Modelled from the spec: `%d` / `%i` of `snprintf`, a signed decimal. -/
def fmt_d : Int → String
  | Int.ofNat n => Nat.repr n
  | Int.negSucc n => "-" ++ Nat.repr (n + 1)

/-- Modelled from the spec: `snprintf(buf, size, ...)` keeps at most `size - 1`
characters of the formatted text. The C function counts bytes; a character of
an ASCII text is one byte, and the statements that depend on where the text
is cut are about ASCII text. -/
def snprintf (size : Nat) (text : String) : String :=
  String.mk (text.data.take (size - 1))

/-! ## The program -/

/-- The indicator `AmOrPm` (lines 43-48). The first component is the new value
of its `static` variable `xm`, the second the pointer it returns. -/
def AmOrPm (xm : String) (tick_time : Tm) : String × String :=
  let xm := if tick_time.tm_hour < 12 then "a" else xm
  (xm, xm)

/-- Tick handler of the clock display (`tick_handler_minute`, lines 53-65). -/
def tick_handler_minute (st : State) (tick_time : Tm) : State × List Event :=
  let s_time_buffer := strftime_I_M tick_time
  let r := AmOrPm st.xm tick_time
  let xm_time := r.2
  let s_status_buffer :=
    snprintf 64 (st.s_status_hdr_buffer ++ "Now: " ++ s_time_buffer ++ xm_time)
  ({ st with xm := r.1 }, [Event.text_layer_set_text s_status_buffer])

/-- The vibration of one cue: `if (vibe == LONG) vibes_long_pulse();
else if (vibe == SHORT) vibes_short_pulse();` (lines 88-91 and 110-113). -/
def vibe_events (vibe : EVibe) : List Event :=
  if vibe = EVibe.LONG then [Event.vibes_long_pulse]
  else if vibe = EVibe.SHORT then [Event.vibes_short_pulse]
  else []

/-- One iteration of the completion loop (lines 110-115). -/
def completion_body (c : Completion) : List Event :=
  vibe_events c.vibe ++ (if c.msSleep > 0 then [Event.psleep c.msSleep] else [])

/-- The iterations of the completion loop that remain. -/
def completion_iter (c : Completion) : Nat → List Event
  | 0 => []
  | n + 1 => completion_body c ++ completion_iter c n

/-- The completion loop `for (int i=0; i < nVibes; i++)` (lines 109-116): it
runs `nVibes` times, and not at all when `nVibes` is negative. -/
def completion_loop (c : Completion) : List Event :=
  completion_iter c c.nVibes.toNat

/-- The array read `steps[i]`; `none` is a read outside the array. -/
def stepAt (steps : List Step) (i : Int) : Option Step :=
  if i < 0 then none else steps[i.toNat]?

/-- Tick handler of the timing sequence (`tick_handler`, lines 68-131).
`none` is a read of `steps` outside the array. -/
def tick_handler (cfg : Config) (st : State) (tick_time : Tm) :
    Option (State × List Event) :=
  if st.s_curStep ≥ cfg.N_STEPS then some (st, [])
  else
    let startTime0 := if st.s_stepsSecs = 0 then tick_time else st.s_startTime
    match stepAt cfg.steps st.s_curStep with
    | none => none
    | some pStep =>
      let secsLeft0 := if st.s_stepSecsLeft = 0 then pStep.secs else st.s_stepSecsLeft
      let s_status_buffer :=
        snprintf 32 (pStep.descr ++ "\nSecs Left " ++ fmt_d secsLeft0)
      let cue := if secsLeft0 = pStep.secs then vibe_events pStep.vibe else []
      let restart : Bool := secsLeft0 = pStep.secs ∧ st.s_curStep = cfg.START_STEP_IX
      let startTime1 := if restart then tick_time else startTime0
      let stepsSecs0 := if restart then 0 else st.s_stepsSecs
      let secsLeft1 := secsLeft0 - 1
      let stepsSecs1 := stepsSecs0 + 1
      let curStep1 := if secsLeft1 = 0 then st.s_curStep + 1 else st.s_curStep
      if curStep1 ≥ cfg.N_STEPS then
        let r := AmOrPm st.xm startTime1
        let xm_start := r.2
        let s_start_time_buffer := strftime_I_M_S startTime1
        let hdr := snprintf 32
          ("Start: " ++ s_start_time_buffer ++ xm_start ++ " for " ++ fmt_d stepsSecs1 ++ "s\n")
        some ({ s_curStep := curStep1, s_stepSecsLeft := secsLeft1, s_stepsSecs := stepsSecs1,
                s_startTime := startTime1, s_status_hdr_buffer := hdr, xm := r.1 },
              cue ++ completion_loop cfg.s_completion ++
                [Event.tick_timer_service_unsubscribe,
                 Event.tick_timer_service_subscribe TimeUnits.MINUTE_UNIT
                   Handler.tick_handler_minute,
                 Event.text_layer_set_text s_status_buffer])
      else
        some ({ st with s_curStep := curStep1, s_stepSecsLeft := secsLeft1,
                        s_stepsSecs := stepsSecs1, s_startTime := startTime1 },
              cue ++ [Event.text_layer_set_text s_status_buffer])

/-- The window load handler `main_window_load` (lines 134-148): it creates
the status text layer and sets its text; creating and styling the layer are
host calls outside `Event`. -/
def main_window_load : List Event :=
  [Event.text_layer_set_text "00:00"]

/-- Startup, `init` (lines 156-173): it creates the main window, registers
its handlers, pushes it, which loads it, and subscribes `tick_handler` to
second ticks. It reads none of `steps`, `s_completion` and `START_STEP_IX`,
has no failing path and assigns no program variable. -/
def init (st : State) : State × List Event :=
  (st, main_window_load ++
    [Event.tick_timer_service_subscribe TimeUnits.SECOND_UNIT Handler.tick_handler])

/-- The state after a list of second ticks, one call of `tick_handler` per
tick time; `none` if some call reads outside `steps`. -/
def run (cfg : Config) : State → List Tm → Option State
  | st, [] => some st
  | st, t :: ts =>
    match tick_handler cfg st t with
    | none => none
    | some r => run cfg r.1 ts

/-- The events of every tick of a run, one list per call of `tick_handler`. -/
def trace (cfg : Config) : State → List Tm → Option (List (List Event))
  | _, [] => some []
  | st, t :: ts =>
    match tick_handler cfg st t with
    | none => none
    | some r =>
      match trace cfg r.1 ts with
      | none => none
      | some evs => some (r.2 :: evs)

/-- The call of `tick_handler` for tick time `t` made after the ticks `pre`
were processed from the initial state: tick number `pre.length + 1`. -/
def nextTick (cfg : Config) (pre : List Tm) (t : Tm) : Option (State × List Event) :=
  match run cfg State.init pre with
  | none => none
  | some st => tick_handler cfg st t

/-- Sum of the durations of a list of steps. -/
def totalSecs : List Step → Int
  | [] => 0
  | s :: rest => s.secs + totalSecs rest

/-- Every duration is positive. -/
def positiveDurations (steps : List Step) : Prop :=
  ∀ s ∈ steps, 0 < s.secs

instance (steps : List Step) : Decidable (positiveDurations steps) := by
  unfold positiveDurations
  infer_instance

/-- Sum of the durations of the first `j` steps: the number of ticks that
precede step `j`. -/
def prefixSecs (steps : List Step) (j : Nat) : Int :=
  totalSecs (steps.take j)

/-- Whether an event is a vibration pulse. -/
def isPulse : Event → Bool
  | Event.vibes_long_pulse => true
  | Event.vibes_short_pulse => true
  | _ => false

/-- Number of vibration pulses in a list of events. -/
def pulseCount (evs : List Event) : Nat :=
  (evs.filter isPulse).length

/-- The shipped configuration with a completion action of three cues of type
NONE. -/
def silentCompletion : Config :=
  { steps := steps, s_completion := { nVibes := 3, vibe := EVibe.NONE, msSleep := 333 },
    START_STEP_IX := START_STEP_IX }

/-- A configuration whose only step has a label of 28 characters. -/
def longLabel : Config :=
  { steps := [{ secs := 2, descr := "Hold the stretch and breathe", vibe := EVibe.NONE }],
    s_completion := s_completion, START_STEP_IX := 0 }

/-- The state in which a run of the shipped sequence ends when its tick 6
carries the time 11:58:05. -/
def afterMorningRun : State :=
  { s_curStep := 5, s_stepSecsLeft := 0, s_stepsSecs := 120, s_startTime := clock 11 58 5,
    s_status_hdr_buffer := "Start: 11:58:05a for 120s\n", xm := "a" }

/-- A configuration whose first step has duration 0. -/
def zeroStep : Config :=
  { steps := [{ secs := 0, descr := "Pause", vibe := EVibe.SHORT },
              { secs := 30, descr := "Quad1", vibe := EVibe.LONG }],
    s_completion := s_completion, START_STEP_IX := 1 }

/-- The shipped steps with a starting-step index equal to the step count. -/
def lateStart : Config :=
  { steps := steps, s_completion := s_completion, START_STEP_IX := 5 }

/-- The three counters of the sequencer: `s_curStep`, `s_stepSecsLeft` and
`s_stepsSecs`. -/
def State.counters (st : State) : Int × Int × Int :=
  (st.s_curStep, st.s_stepSecsLeft, st.s_stepsSecs)

/-- Whether an event is a sleep. -/
def isSleep : Event → Bool
  | Event.psleep _ => true
  | _ => false

/-- Number of sleeps in a list of events. -/
def sleepCount (evs : List Event) : Nat :=
  (evs.filter isSleep).length

/-- Total number of milliseconds slept in a list of events. -/
def sleepMs : List Event → Int
  | [] => 0
  | Event.psleep ms :: rest => ms + sleepMs rest
  | _ :: rest => sleepMs rest

/-- The state after a list of minute ticks, one call of
`tick_handler_minute` per tick time. -/
def run_minute : State → List Tm → State
  | st, [] => st
  | st, t :: ts => run_minute (tick_handler_minute st t).1 ts

/-- The check the specification asks of startup, in its words: step list
non-empty, starting-step index in range, no negative duration, no negative
pulse count. The program contains no such check. -/
def configValid (cfg : Config) : Prop :=
  cfg.steps ≠ [] ∧ (0 ≤ cfg.START_STEP_IX ∧ cfg.START_STEP_IX < cfg.N_STEPS) ∧
    (∀ s ∈ cfg.steps, 0 ≤ s.secs) ∧ 0 ≤ cfg.s_completion.nVibes

instance (cfg : Config) : Decidable (configValid cfg) := by
  unfold configValid
  infer_instance

/-- A configuration with a negative duration, a negative pulse count and a
starting-step index outside the step list. -/
def misconfigured : Config :=
  { steps := [{ secs := -3, descr := "Bad", vibe := EVibe.LONG }],
    s_completion := { nVibes := -2, vibe := EVibe.SHORT, msSleep := 333 },
    START_STEP_IX := 7 }

/-- A configuration with an empty step list. -/
def noSteps : Config :=
  { steps := [], s_completion := s_completion, START_STEP_IX := 0 }

/-- A text of ASCII characters only. Each of them is one byte of the C
string, so that the characters of such a text are its bytes. -/
def isAscii (text : String) : Prop :=
  ∀ c ∈ text.data, c.toNat < 128

instance (text : String) : Decidable (isAscii text) := by
  unfold isAscii
  infer_instance

/-! ## Where a run stands after `k` ticks -/

/-- After `k` ticks the run is inside step `j`, whose table entry is `s`: the
`k` ticks cover the steps before `j` and fewer than `s.secs` ticks of step `j`. -/
structure InStep (cfg : Config) (k : Nat) (st : State) (j : Nat) (s : Step) : Prop where
  hj : cfg.steps[j]? = some s
  hlo : prefixSecs cfg.steps j ≤ k
  hhi : (k : Int) < prefixSecs cfg.steps j + s.secs
  hcur : st.s_curStep = j
  hleft : st.s_stepSecsLeft =
    if (k : Int) = prefixSecs cfg.steps j then 0 else prefixSecs cfg.steps j + s.secs - k

/-- The number of ticks that precede the entry to the starting step; `none`
when `START_STEP_IX` is not an index of the step table. -/
def startTicks (cfg : Config) : Option Int :=
  if 0 ≤ cfg.START_STEP_IX ∧ cfg.START_STEP_IX < cfg.N_STEPS then
    some (prefixSecs cfg.steps cfg.START_STEP_IX.toNat)
  else none

/-- The elapsed seconds after `k` ticks of a run that has not gone past
completion: the ticks since the entry to the starting step once it was
entered, all the ticks before. -/
def elapsedAfter (cfg : Config) (k : Nat) : Int :=
  match startTicks cfg with
  | some p => if p < k then k - p else k
  | none => k

/-- The start time after the ticks `pre` of a run that has not gone past
completion: the time of the tick that entered the starting step once it was
entered, the time of the first tick before. -/
def startTimeAfter (cfg : Config) (pre : List Tm) : Tm :=
  match startTicks cfg with
  | some p =>
    if p < pre.length then pre.getD p.toNat State.init.s_startTime
    else pre.getD 0 State.init.s_startTime
  | none => pre.getD 0 State.init.s_startTime

/-- What is known of the state after the ticks `pre` from the initial state,
for a run that has not gone past completion. -/
structure Reached (cfg : Config) (pre : List Tm) (st : State) : Prop where
  inStep : (pre.length : Int) < totalSecs cfg.steps → ∃ j s, InStep cfg pre.length st j s
  done : (pre.length : Int) = totalSecs cfg.steps →
    st.s_curStep = cfg.N_STEPS ∧ st.s_stepSecsLeft = 0
  elapsed : st.s_stepsSecs = elapsedAfter cfg pre.length
  start : st.s_startTime = startTimeAfter cfg pre
  before : (pre.length : Int) < totalSecs cfg.steps →
    st.s_status_hdr_buffer = "" ∧ st.xm = "p"
  heading : (pre.length : Int) = totalSecs cfg.steps → 0 < pre.length →
    st.s_status_hdr_buffer =
      snprintf 32 ("Start: " ++ strftime_I_M_S st.s_startTime ++
        (AmOrPm "p" st.s_startTime).2 ++ " for " ++ fmt_d st.s_stepsSecs ++ "s\n") ∧
    st.xm = (AmOrPm "p" st.s_startTime).1

/-! ## Basic facts about the step table -/

theorem stepAt_natCast (steps : List Step) (j : Nat) : stepAt steps (j : Int) = steps[j]? := by
  unfold stepAt
  have h : ¬ ((j : Int) < 0) := by omega
  simp [h]

theorem prefixSecs_zero (steps : List Step) : prefixSecs steps 0 = 0 := by
  simp [prefixSecs, totalSecs]

theorem totalSecs_append (xs ys : List Step) :
    totalSecs (xs ++ ys) = totalSecs xs + totalSecs ys := by
  induction xs with
  | nil => simp [totalSecs]
  | cons x xs ih => simp [totalSecs, ih, add_assoc]

theorem prefixSecs_succ (steps : List Step) (j : Nat) (s : Step) (hj : steps[j]? = some s) :
    prefixSecs steps (j + 1) = prefixSecs steps j + s.secs := by
  unfold prefixSecs
  have hlt : j < steps.length := by
    rcases Nat.lt_or_ge j steps.length with h | h
    · exact h
    · rw [List.getElem?_eq_none h] at hj
      cases hj
  have hs : steps[j] = s := by
    rw [List.getElem?_eq_getElem hlt] at hj
    exact Option.some.inj hj
  rw [List.take_succ, totalSecs_append, List.getElem?_eq_getElem hlt, hs]
  simp [totalSecs]

theorem prefixSecs_length (steps : List Step) : prefixSecs steps steps.length = totalSecs steps := by
  simp [prefixSecs]

theorem totalSecs_nonneg (steps : List Step) (hpos : positiveDurations steps) :
    0 ≤ totalSecs steps := by
  induction steps with
  | nil => simp [totalSecs]
  | cons x xs ih =>
    have hx : 0 < x.secs := hpos x (List.mem_cons_self x xs)
    have hxs : positiveDurations xs := fun s hs => hpos s (List.mem_cons_of_mem x hs)
    have := ih hxs
    simp only [totalSecs]
    omega

theorem secs_pos_of_step (steps : List Step) (hpos : positiveDurations steps) (j : Nat)
    (s : Step) (hj : steps[j]? = some s) : 0 < s.secs :=
  hpos s (List.getElem?_mem hj)

theorem positiveDurations_drop (steps : List Step) (hpos : positiveDurations steps) (n : Nat) :
    positiveDurations (steps.drop n) :=
  fun s hs => hpos s (List.mem_of_mem_drop hs)

theorem totalSecs_eq_prefix_add_drop (steps : List Step) (n : Nat) :
    totalSecs steps = prefixSecs steps n + totalSecs (steps.drop n) := by
  unfold prefixSecs
  rw [← totalSecs_append, List.take_append_drop]

theorem lt_length_of_step (steps : List Step) (j : Nat) (s : Step) (hj : steps[j]? = some s) :
    j < steps.length := by
  rcases Nat.lt_or_ge j steps.length with h | h
  · exact h
  · rw [List.getElem?_eq_none h] at hj
    cases hj

/-- The ticks of step `j` end no later than the whole sequence. -/
theorem prefixSecs_succ_le_total (steps : List Step) (hpos : positiveDurations steps) (j : Nat)
    (s : Step) (hj : steps[j]? = some s) : prefixSecs steps j + s.secs ≤ totalSecs steps := by
  rw [← prefixSecs_succ steps j s hj, totalSecs_eq_prefix_add_drop steps (j + 1)]
  have := totalSecs_nonneg _ (positiveDurations_drop steps hpos (j + 1))
  omega

/-- Only the last step ends with the whole sequence. -/
theorem prefixSecs_succ_eq_total_iff (steps : List Step) (hpos : positiveDurations steps) (j : Nat)
    (s : Step) (hj : steps[j]? = some s) :
    prefixSecs steps j + s.secs = totalSecs steps ↔ j + 1 = steps.length := by
  have hlt := lt_length_of_step steps j s hj
  rw [← prefixSecs_succ steps j s hj]
  constructor
  · intro h
    by_contra hne
    have hlt2 : j + 1 < steps.length := by omega
    have hsome : steps[j + 1]? = some steps[j + 1] := List.getElem?_eq_getElem hlt2
    have h1 := prefixSecs_succ_le_total steps hpos (j + 1) _ hsome
    have h2 := secs_pos_of_step steps hpos (j + 1) _ hsome
    omega
  · intro h
    rw [h, prefixSecs_length]

/-- The prefix sums are non-negative. -/
theorem prefixSecs_nonneg (steps : List Step) (hpos : positiveDurations steps) (j : Nat) :
    0 ≤ prefixSecs steps j :=
  totalSecs_nonneg _ (fun s hs => hpos s (List.mem_of_mem_take hs))

/-- The prefix sums grow with the index. -/
theorem prefixSecs_mono (steps : List Step) (hpos : positiveDurations steps) (i j : Nat)
    (hij : i ≤ j) : prefixSecs steps i ≤ prefixSecs steps j := by
  induction j with
  | zero =>
    have : i = 0 := by omega
    rw [this]
  | succ j ih =>
    rcases Nat.lt_or_ge i (j + 1) with h | h
    · have h1 := ih (by omega)
      rcases Nat.lt_or_ge j steps.length with hj | hj
      · have hsome : steps[j]? = some steps[j] := List.getElem?_eq_getElem hj
        rw [prefixSecs_succ steps j _ hsome]
        have := secs_pos_of_step steps hpos j _ hsome
        omega
      · have e1 : prefixSecs steps (j + 1) = prefixSecs steps j := by
          unfold prefixSecs
          rw [List.take_of_length_le (by omega), List.take_of_length_le hj]
        omega
    · have : i = j + 1 := by omega
      rw [this]

/-- One tick from a state inside step `j`, field by field. -/
theorem tick_handler_inStep (cfg : Config) (hpos : positiveDurations cfg.steps) (k : Nat)
    (st : State) (j : Nat) (s : Step) (h : InStep cfg k st j s) (t : Tm) :
    ∃ st' ev, tick_handler cfg st t = some (st', ev) ∧
      st'.s_stepSecsLeft = prefixSecs cfg.steps j + s.secs - k - 1 ∧
      st'.s_curStep =
        (if (k : Int) + 1 = prefixSecs cfg.steps j + s.secs then (j : Int) + 1 else j) ∧
      st'.s_stepsSecs =
        (if (k : Int) = prefixSecs cfg.steps j ∧ (j : Int) = cfg.START_STEP_IX then 0
         else st.s_stepsSecs) + 1 ∧
      st'.s_startTime =
        (if (k : Int) = prefixSecs cfg.steps j ∧ (j : Int) = cfg.START_STEP_IX then t
         else if st.s_stepsSecs = 0 then t else st.s_startTime) ∧
      (if (k : Int) + 1 = totalSecs cfg.steps then
        st'.s_status_hdr_buffer =
          snprintf 32 ("Start: " ++ strftime_I_M_S st'.s_startTime ++
            (AmOrPm st.xm st'.s_startTime).2 ++ " for " ++ fmt_d st'.s_stepsSecs ++ "s\n") ∧
        st'.xm = (AmOrPm st.xm st'.s_startTime).1 ∧
        ev = (if (k : Int) = prefixSecs cfg.steps j then vibe_events s.vibe else []) ++
          completion_loop cfg.s_completion ++
          [Event.tick_timer_service_unsubscribe,
           Event.tick_timer_service_subscribe TimeUnits.MINUTE_UNIT Handler.tick_handler_minute,
           Event.text_layer_set_text (snprintf 32 (s.descr ++ "\nSecs Left " ++
             fmt_d (prefixSecs cfg.steps j + s.secs - k)))]
      else
        st'.s_status_hdr_buffer = st.s_status_hdr_buffer ∧ st'.xm = st.xm ∧
        ev = (if (k : Int) = prefixSecs cfg.steps j then vibe_events s.vibe else []) ++
          [Event.text_layer_set_text (snprintf 32 (s.descr ++ "\nSecs Left " ++
             fmt_d (prefixSecs cfg.steps j + s.secs - k)))]) := by
  obtain ⟨hj, hlo, hhi, hcur, hleft⟩ := h
  have hlt := lt_length_of_step cfg.steps j s hj
  have hsecs := secs_pos_of_step cfg.steps hpos j s hj
  have htot := prefixSecs_succ_eq_total_iff cfg.steps hpos j s hj
  have hle := prefixSecs_succ_le_total cfg.steps hpos j s hj
  have hN : ¬ (st.s_curStep ≥ cfg.N_STEPS) := by
    unfold Config.N_STEPS
    omega
  have hstep : stepAt cfg.steps st.s_curStep = some s := by
    rw [hcur, stepAt_natCast, hj]
  unfold tick_handler
  rw [if_neg hN]
  simp only [hstep]
  have hr : (if st.s_stepSecsLeft = 0 then s.secs else st.s_stepSecsLeft) =
      prefixSecs cfg.steps j + s.secs - k := by
    rw [hleft]
    split_ifs <;> omega
  simp only [hr]
  have hc1 : (prefixSecs cfg.steps j + s.secs - k = s.secs) ↔ (k : Int) = prefixSecs cfg.steps j := by
    omega
  have hc2 : (prefixSecs cfg.steps j + s.secs - k - 1 = 0) ↔
      (k : Int) + 1 = prefixSecs cfg.steps j + s.secs := by
    omega
  simp only [hc1, hc2, hcur]
  by_cases hlast : (k : Int) + 1 = totalSecs cfg.steps
  · have hend : (k : Int) + 1 = prefixSecs cfg.steps j + s.secs := by omega
    have hjN : j + 1 = cfg.steps.length := htot.mp (by omega)
    have hge : (if (k : Int) + 1 = prefixSecs cfg.steps j + s.secs then (j : Int) + 1 else j) ≥
        cfg.N_STEPS := by
      rw [if_pos hend]
      unfold Config.N_STEPS
      omega
    rw [if_pos hge]
    refine ⟨_, _, rfl, ?_⟩
    simp [if_pos hlast]
  · have hge : ¬ ((if (k : Int) + 1 = prefixSecs cfg.steps j + s.secs then (j : Int) + 1 else j) ≥
        cfg.N_STEPS) := by
      unfold Config.N_STEPS
      split_ifs with h1
      · have h2 : prefixSecs cfg.steps j + s.secs ≠ totalSecs cfg.steps := by omega
        have h3 : j + 1 ≠ cfg.steps.length := fun e => h2 (htot.mpr e)
        omega
      · omega
    rw [if_neg hge]
    refine ⟨_, _, rfl, ?_⟩
    simp [if_neg hlast]

/-- Two steps whose tick ranges contain the same tick count are the same step. -/
theorem step_index_unique (steps : List Step) (hpos : positiveDurations steps) (k : Int)
    (i j : Nat) (si sj : Step) (hi : steps[i]? = some si) (hj : steps[j]? = some sj)
    (hi1 : prefixSecs steps i ≤ k) (hi2 : k < prefixSecs steps i + si.secs)
    (hj1 : prefixSecs steps j ≤ k) (hj2 : k < prefixSecs steps j + sj.secs) : i = j := by
  by_contra hne
  rcases Nat.lt_or_ge i j with h | h
  · have h1 := prefixSecs_mono steps hpos (i + 1) j (by omega)
    rw [prefixSecs_succ steps i si hi] at h1
    omega
  · have h1 := prefixSecs_mono steps hpos (j + 1) i (by omega)
    rw [prefixSecs_succ steps j sj hj] at h1
    omega

theorem run_append (cfg : Config) (st : State) (a b : List Tm) :
    run cfg st (a ++ b) = (run cfg st a).bind (fun s => run cfg s b) := by
  induction a generalizing st with
  | nil => simp [run]
  | cons t ts ih =>
    simp only [List.cons_append, run]
    cases h : tick_handler cfg st t with
    | none => simp
    | some r => simp [ih]

theorem run_concat (cfg : Config) (st0 st : State) (pre : List Tm) (t : Tm)
    (h : run cfg st0 pre = some st) :
    run cfg st0 (pre ++ [t]) = (tick_handler cfg st t).map Prod.fst := by
  rw [run_append, h]
  simp only [Option.some_bind, run]
  cases tick_handler cfg st t with
  | none => rfl
  | some r => rfl

/-- The restart test of lines 87 and 93 succeeds exactly on the tick that
enters the starting step. -/
theorem restart_iff (cfg : Config) (hpos : positiveDurations cfg.steps) (k : Nat) (st : State)
    (j : Nat) (s : Step) (h : InStep cfg k st j s) :
    ((k : Int) = prefixSecs cfg.steps j ∧ (j : Int) = cfg.START_STEP_IX) ↔
      startTicks cfg = some (k : Int) := by
  obtain ⟨hj, hlo, hhi, hcur, hleft⟩ := h
  have hlt := lt_length_of_step cfg.steps j s hj
  unfold startTicks Config.N_STEPS
  constructor
  · rintro ⟨hk, hjs⟩
    have hv : 0 ≤ cfg.START_STEP_IX ∧ cfg.START_STEP_IX < (cfg.steps.length : Int) := by omega
    rw [if_pos hv, ← hjs, Int.toNat_ofNat, hk]
  · intro hsome
    split_ifs at hsome with hv
    have hp : prefixSecs cfg.steps cfg.START_STEP_IX.toNat = k := Option.some.inj hsome
    have hm : cfg.START_STEP_IX.toNat < cfg.steps.length := by omega
    have hsm : cfg.steps[cfg.START_STEP_IX.toNat]? = some cfg.steps[cfg.START_STEP_IX.toNat] :=
      List.getElem?_eq_getElem hm
    have hpm := secs_pos_of_step cfg.steps hpos _ _ hsm
    have hij := step_index_unique cfg.steps hpos k _ j _ s hsm hj (by omega) (by omega) hlo hhi
    rw [hij] at hp
    constructor
    · omega
    · omega

theorem totalSecs_pos_iff (steps : List Step) (hpos : positiveDurations steps) :
    0 < totalSecs steps ↔ steps ≠ [] := by
  cases steps with
  | nil => simp [totalSecs]
  | cons x xs =>
    have hx : 0 < x.secs := hpos x (List.mem_cons_self x xs)
    have := totalSecs_nonneg xs (fun s hs => hpos s (List.mem_cons_of_mem x hs))
    simp only [totalSecs, ne_eq, reduceCtorEq, not_false_eq_true, iff_true]
    omega

theorem startTicks_nonneg (cfg : Config) (hpos : positiveDurations cfg.steps) (p : Int)
    (h : startTicks cfg = some p) : 0 ≤ p := by
  unfold startTicks at h
  split_ifs at h
  have := prefixSecs_nonneg cfg.steps hpos cfg.START_STEP_IX.toNat
  have hp := Option.some.inj h
  omega

theorem reached_init (cfg : Config) (hpos : positiveDurations cfg.steps) :
    Reached cfg [] State.init := by
  refine ⟨?_, ?_, ?_, ?_, ?_, ?_⟩
  · intro h
    have hne : cfg.steps ≠ [] := (totalSecs_pos_iff cfg.steps hpos).mp (by simpa using h)
    obtain ⟨x, xs, hx⟩ := List.exists_cons_of_ne_nil hne
    have hsecs : 0 < x.secs := hpos x (by rw [hx]; exact List.mem_cons_self x xs)
    refine ⟨0, x, ?_, ?_, ?_, ?_, ?_⟩
    · rw [hx]; simp
    · simp [prefixSecs_zero]
    · simp only [prefixSecs_zero, List.length_nil, Nat.cast_zero]
      omega
    · rfl
    · simp [prefixSecs_zero, State.init]
  · intro h
    have h0 : ¬ (0 < totalSecs cfg.steps) := by
      simp only [List.length_nil, Nat.cast_zero] at h
      omega
    have hnil : cfg.steps = [] := by
      by_contra hne
      exact h0 ((totalSecs_pos_iff cfg.steps hpos).mpr hne)
    simp [State.init, Config.N_STEPS, hnil]
  · unfold elapsedAfter
    cases hst : startTicks cfg with
    | none => simp [State.init]
    | some p =>
      have := startTicks_nonneg cfg hpos p hst
      have hn : ¬ (p < ((([] : List Tm).length : Nat) : Int)) := by
        simp only [List.length_nil, Nat.cast_zero]
        omega
      simp only [if_neg hn]
      simp [State.init]
  · unfold startTimeAfter
    cases startTicks cfg with
    | none => simp
    | some p => simp
  · intro _
    exact ⟨rfl, rfl⟩
  · intro _ h
    simp at h

theorem elapsedAfter_eq_zero_iff (cfg : Config) (hpos : positiveDurations cfg.steps) (k : Nat) :
    elapsedAfter cfg k = 0 ↔ k = 0 := by
  unfold elapsedAfter
  cases hst : startTicks cfg with
  | none => simp
  | some p =>
    have := startTicks_nonneg cfg hpos p hst
    simp only
    split_ifs <;> omega

/-- One more tick of a run that has not completed keeps the description of
the state. -/
theorem reached_tick (cfg : Config) (hpos : positiveDurations cfg.steps) (pre : List Tm)
    (st : State) (hR : Reached cfg pre st) (hlt : (pre.length : Int) < totalSecs cfg.steps)
    (t : Tm) :
    ∃ st' ev, tick_handler cfg st t = some (st', ev) ∧ Reached cfg (pre ++ [t]) st' := by
  obtain ⟨j, s, hin⟩ := hR.inStep hlt
  obtain ⟨st', ev, hth, h1, h2, h3, h4, h5⟩ := tick_handler_inStep cfg hpos pre.length st j s hin t
  have hrst := restart_iff cfg hpos pre.length st j s hin
  obtain ⟨hj, hlo, hhi, hcur, hleft⟩ := hin
  have hlen : (pre ++ [t]).length = pre.length + 1 := by simp
  have htot := prefixSecs_succ_eq_total_iff cfg.steps hpos j s hj
  have hle := prefixSecs_succ_le_total cfg.steps hpos j s hj
  have hjlt := lt_length_of_step cfg.steps j s hj
  have hz := elapsedAfter_eq_zero_iff cfg hpos pre.length
  refine ⟨st', ev, hth, ?_, ?_, ?_, ?_, ?_, ?_⟩
  · intro hlt'
    rw [hlen] at hlt' ⊢
    push_cast at hlt'
    by_cases hend : (pre.length : Int) + 1 = prefixSecs cfg.steps j + s.secs
    · have hne : j + 1 ≠ cfg.steps.length := fun e => by
        have := htot.mpr e
        omega
      have hj1 : j + 1 < cfg.steps.length := by omega
      have hs1 : cfg.steps[j + 1]? = some cfg.steps[j + 1] := List.getElem?_eq_getElem hj1
      have hp1 := secs_pos_of_step cfg.steps hpos (j + 1) _ hs1
      have hpre := prefixSecs_succ cfg.steps j s hj
      refine ⟨j + 1, cfg.steps[j + 1], hs1, ?_, ?_, ?_, ?_⟩
      · push_cast
        omega
      · push_cast
        omega
      · rw [h2, if_pos hend]
        push_cast
        rfl
      · have e : ((pre.length + 1 : Nat) : Int) = prefixSecs cfg.steps (j + 1) := by
          push_cast
          omega
        rw [if_pos e, h1]
        omega
    · refine ⟨j, s, hj, ?_, ?_, ?_, ?_⟩
      · push_cast
        omega
      · push_cast
        omega
      · rw [h2, if_neg hend]
      · have e : ¬ (((pre.length + 1 : Nat) : Int) = prefixSecs cfg.steps j) := by
          push_cast
          omega
        rw [if_neg e, h1]
        push_cast
        omega
  · intro hd
    rw [hlen] at hd
    push_cast at hd
    have hend : (pre.length : Int) + 1 = prefixSecs cfg.steps j + s.secs := by omega
    have hjN : j + 1 = cfg.steps.length := htot.mp (by omega)
    constructor
    · rw [h2, if_pos hend]
      unfold Config.N_STEPS
      omega
    · rw [h1]
      omega
  · rw [h3, hR.elapsed, hlen]
    simp only [hrst]
    unfold elapsedAfter
    cases hst : startTicks cfg with
    | none =>
      simp only [reduceCtorEq, if_false]
      push_cast
      rfl
    | some p =>
      simp only [Option.some.injEq]
      push_cast
      split_ifs <;> omega
  · rw [h4, hR.start]
    simp only [hrst, hR.elapsed, hz]
    unfold startTimeAfter
    cases hst : startTicks cfg with
    | none =>
      simp only [reduceCtorEq, if_false]
      by_cases hk0 : pre.length = 0
      · have : pre = [] := List.length_eq_zero.mp hk0
        subst this
        simp
      · rw [if_neg hk0, List.getD_append _ _ _ _ (by omega)]
    | some p =>
      have hp0 := startTicks_nonneg cfg hpos p hst
      simp only [Option.some.injEq, hlen]
      push_cast
      by_cases hpk : p = (pre.length : Int)
      · have h1' : p < (pre.length : Int) + 1 := by omega
        rw [if_pos hpk, if_pos h1', hpk, Int.toNat_ofNat,
          List.getD_append_right _ _ _ _ (le_refl _)]
        simp
      · rw [if_neg hpk]
        by_cases hplt : p < (pre.length : Int)
        · have h1' : p < (pre.length : Int) + 1 := by omega
          have hk0 : pre.length ≠ 0 := by omega
          rw [if_neg hk0, if_pos hplt, if_pos h1', List.getD_append _ _ _ _ (by omega)]
        · have h1' : ¬ (p < (pre.length : Int) + 1) := by omega
          rw [if_neg hplt, if_neg h1']
          by_cases hk0 : pre.length = 0
          · have : pre = [] := List.length_eq_zero.mp hk0
            subst this
            simp
          · rw [if_neg hk0, List.getD_append _ _ _ _ (by omega)]
  · intro hlt'
    rw [hlen] at hlt'
    push_cast at hlt'
    have hne : ¬ ((pre.length : Int) + 1 = totalSecs cfg.steps) := by omega
    rw [if_neg hne] at h5
    obtain ⟨hb1, hb2⟩ := hR.before hlt
    exact ⟨by rw [h5.1, hb1], by rw [h5.2.1, hb2]⟩
  · intro hd _
    rw [hlen] at hd
    push_cast at hd
    rw [if_pos hd] at h5
    obtain ⟨_, hb2⟩ := hR.before hlt
    rw [hb2] at h5
    exact ⟨h5.1, h5.2.1⟩

/-- Every run that is no longer than the sequence returns a state, and the
state is the one `Reached` describes. -/
theorem run_reached (cfg : Config) (hpos : positiveDurations cfg.steps) (pre : List Tm)
    (hlen : (pre.length : Int) ≤ totalSecs cfg.steps) :
    ∃ st, run cfg State.init pre = some st ∧ Reached cfg pre st := by
  induction pre using List.reverseRecOn with
  | nil => exact ⟨State.init, rfl, reached_init cfg hpos⟩
  | append_singleton pre t ih =>
    have hl : (pre ++ [t]).length = pre.length + 1 := by simp
    rw [hl] at hlen
    push_cast at hlen
    obtain ⟨st, hrun, hR⟩ := ih (by omega)
    obtain ⟨st', ev, hth, hR'⟩ := reached_tick cfg hpos pre st hR (by omega) t
    refine ⟨st', ?_, hR'⟩
    rw [run_concat cfg State.init st pre t hrun, hth]
    rfl

theorem tick_handler_terminal (cfg : Config) (st : State) (t : Tm)
    (h : st.s_curStep ≥ cfg.N_STEPS) : tick_handler cfg st t = some (st, []) := by
  unfold tick_handler
  rw [if_pos h]

theorem run_terminal (cfg : Config) (st : State) (ts : List Tm)
    (h : st.s_curStep ≥ cfg.N_STEPS) : run cfg st ts = some st := by
  induction ts with
  | nil => rfl
  | cons t ts ih =>
    simp only [run, tick_handler_terminal cfg st t h]
    exact ih

/-- A run that goes past completion ends in the state of the completing tick. -/
theorem run_past_completion (cfg : Config) (hpos : positiveDurations cfg.steps) (ts : List Tm)
    (hlen : totalSecs cfg.steps ≤ (ts.length : Int)) :
    ∃ st, run cfg State.init ts = some st ∧
      run cfg State.init (ts.take (totalSecs cfg.steps).toNat) = some st ∧
      Reached cfg (ts.take (totalSecs cfg.steps).toNat) st := by
  have h0 := totalSecs_nonneg cfg.steps hpos
  have hl : ((ts.take (totalSecs cfg.steps).toNat).length : Int) = totalSecs cfg.steps := by
    rw [List.length_take]
    omega
  obtain ⟨st, hrun, hR⟩ := run_reached cfg hpos (ts.take (totalSecs cfg.steps).toNat) (by omega)
  refine ⟨st, ?_, hrun, hR⟩
  have hsplit : ts = ts.take (totalSecs cfg.steps).toNat ++ ts.drop (totalSecs cfg.steps).toNat :=
    (List.take_append_drop _ _).symm
  rw [hsplit, run_append, hrun]
  simp only [Option.some_bind, List.take_append_drop]
  exact run_terminal cfg st _ (by rw [(hR.done hl).1])

theorem stepAt_of_ge (steps : List Step) (i : Int) (h : i ≥ (steps.length : Int)) :
    stepAt steps i = none := by
  unfold stepAt
  have h0 : ¬ (i < 0) := by omega
  rw [if_neg h0]
  exact List.getElem?_eq_none (by omega)

/-- The state before a tick of a run that has not completed, and the step in
which that tick falls. -/
theorem before_tick (cfg : Config) (hpos : positiveDurations cfg.steps) (pre : List Tm)
    (hlt : (pre.length : Int) < totalSecs cfg.steps) :
    ∃ st j s, run cfg State.init pre = some st ∧ Reached cfg pre st ∧
      InStep cfg pre.length st j s := by
  obtain ⟨st, hrun, hR⟩ := run_reached cfg hpos pre (by omega)
  obtain ⟨j, s, hin⟩ := hR.inStep hlt
  exact ⟨st, j, s, hrun, hR, hin⟩

theorem startTicks_of_valid (cfg : Config) (m : Nat) (sm : Step)
    (hm : cfg.START_STEP_IX = (m : Int)) (hsm : cfg.steps[m]? = some sm) :
    startTicks cfg = some (prefixSecs cfg.steps m) := by
  have hlt := lt_length_of_step cfg.steps m sm hsm
  unfold startTicks Config.N_STEPS
  have hv : 0 ≤ cfg.START_STEP_IX ∧ cfg.START_STEP_IX < (cfg.steps.length : Int) := by omega
  rw [if_pos hv, hm, Int.toNat_ofNat]

/-- A tick of a run that has not completed: the state before it, the step it
falls in, and the state and events after it. -/
theorem next_tick (cfg : Config) (hpos : positiveDurations cfg.steps) (pre : List Tm) (t : Tm)
    (hlt : (pre.length : Int) < totalSecs cfg.steps) :
    ∃ st j s st' ev, run cfg State.init pre = some st ∧ Reached cfg pre st ∧
      InStep cfg pre.length st j s ∧ tick_handler cfg st t = some (st', ev) ∧
      run cfg State.init (pre ++ [t]) = some st' ∧ Reached cfg (pre ++ [t]) st' := by
  obtain ⟨st, j, s, hrun, hR, hin⟩ := before_tick cfg hpos pre hlt
  obtain ⟨st', ev, hth, hR'⟩ := reached_tick cfg hpos pre st hR hlt t
  refine ⟨st, j, s, st', ev, hrun, hR, hin, hth, ?_, hR'⟩
  rw [run_concat cfg State.init st pre t hrun, hth]
  rfl

theorem completion_iter_eq_flatten (c : Completion) (n : Nat) :
    completion_iter c n = (List.replicate n (completion_body c)).flatten := by
  induction n with
  | zero => rfl
  | succ n ih => simp [completion_iter, List.replicate_succ, ih]

theorem pulseCount_append (xs ys : List Event) :
    pulseCount (xs ++ ys) = pulseCount xs + pulseCount ys := by
  simp [pulseCount]

theorem pulseCount_completion_body (c : Completion) :
    pulseCount (completion_body c) = if c.vibe = EVibe.NONE then 0 else 1 := by
  unfold completion_body vibe_events
  rw [pulseCount_append]
  cases c.vibe <;> by_cases h : c.msSleep > 0 <;> simp [pulseCount, isPulse, h]

theorem pulseCount_completion_iter (c : Completion) (n : Nat) :
    pulseCount (completion_iter c n) = if c.vibe = EVibe.NONE then 0 else n := by
  induction n with
  | zero => simp [completion_iter, pulseCount]
  | succ n ih =>
    simp only [completion_iter, pulseCount_append, ih, pulseCount_completion_body]
    split_ifs <;> omega

/-- The counters of a run that has not gone past completion stay between 0
and the sum of the durations, so no `int` operation of such a run overflows
when that sum fits an `int`. -/
theorem counters_in_range (cfg : Config) (hpos : positiveDurations cfg.steps) (pre : List Tm)
    (hlen : (pre.length : Int) ≤ totalSecs cfg.steps) :
    ∃ st, run cfg State.init pre = some st ∧
      0 ≤ st.s_curStep ∧ st.s_curStep ≤ cfg.N_STEPS ∧
      0 ≤ st.s_stepSecsLeft ∧ st.s_stepSecsLeft ≤ totalSecs cfg.steps ∧
      0 ≤ st.s_stepsSecs ∧ st.s_stepsSecs ≤ (pre.length : Int) := by
  obtain ⟨st, hrun, hR⟩ := run_reached cfg hpos pre hlen
  have hel : 0 ≤ st.s_stepsSecs ∧ st.s_stepsSecs ≤ (pre.length : Int) := by
    rw [hR.elapsed]
    unfold elapsedAfter
    cases hst : startTicks cfg with
    | none => simp
    | some p =>
      have := startTicks_nonneg cfg hpos p hst
      simp only
      split_ifs <;> constructor <;> omega
  rcases lt_or_eq_of_le hlen with hlt | heq
  · obtain ⟨j, s, hj, hlo, hhi, hcur, hleft⟩ := hR.inStep hlt
    have hjl := lt_length_of_step cfg.steps j s hj
    have hle := prefixSecs_succ_le_total cfg.steps hpos j s hj
    refine ⟨st, hrun, ?_, ?_, ?_, ?_, hel.1, hel.2⟩
    · omega
    · unfold Config.N_STEPS
      omega
    · rw [hleft]
      split_ifs <;> omega
    · rw [hleft]
      split_ifs <;> omega
  · obtain ⟨hc, hl⟩ := hR.done heq
    refine ⟨st, hrun, ?_, ?_, ?_, ?_, hel.1, hel.2⟩
    · rw [hc]
      unfold Config.N_STEPS
      omega
    · omega
    · omega
    · omega

/-! ## Formatting facts -/

theorem snprintf_of_fits (size : Nat) (text : String) (h : text.length + 1 ≤ size) :
    snprintf size text = text := by
  unfold snprintf
  rw [List.take_of_length_le (by
    have : text.data.length = text.length := rfl
    omega)]

theorem fmt_02d_length (n : Nat) (h : n < 100) : (fmt_02d n).length = 2 := by
  unfold fmt_02d
  rw [if_pos h]
  rfl

theorem hour12_le (h : Nat) : hour12 h ≤ 12 := by
  unfold hour12
  split_ifs <;> omega

theorem strftime_I_M_length (t : Tm) (hv : t.valid) : (strftime_I_M t).length = 5 := by
  obtain ⟨_, hm, _⟩ := hv
  have hh := hour12_le t.tm_hour
  unfold strftime_I_M
  rw [String.length_append, String.length_append, fmt_02d_length _ (by omega),
    fmt_02d_length _ (by omega)]
  rfl

theorem strftime_I_M_S_length (t : Tm) (hv : t.valid) : (strftime_I_M_S t).length = 8 := by
  obtain ⟨_, hm, hs⟩ := hv
  have hh := hour12_le t.tm_hour
  unfold strftime_I_M_S
  rw [String.length_append, String.length_append, String.length_append, String.length_append,
    fmt_02d_length _ (by omega), fmt_02d_length _ (by omega), fmt_02d_length _ (by omega)]
  rfl

theorem AmOrPm_eq (xm : String) (t : Tm) :
    AmOrPm xm t = (if t.tm_hour < 12 then "a" else xm, if t.tm_hour < 12 then "a" else xm) :=
  rfl

theorem AmOrPm_length (xm : String) (t : Tm) (hx : xm.length = 1) :
    (AmOrPm xm t).2.length = 1 := by
  rw [AmOrPm_eq]
  simp only
  split_ifs
  · rfl
  · exact hx

/-- The state in which a run ends on its completing tick, when the starting
step is step `m` of the table and `t0` is the time of the tick that enters it. -/
theorem completed_run (cfg : Config) (hpos : positiveDurations cfg.steps)
    (m : Nat) (sm : Step) (hm : cfg.START_STEP_IX = (m : Int)) (hsm : cfg.steps[m]? = some sm)
    (pre : List Tm) (t0 : Tm) (mid : List Tm)
    (hpre : (pre.length : Int) = prefixSecs cfg.steps m)
    (hlen : ((pre ++ t0 :: mid).length : Int) = totalSecs cfg.steps) :
    ∃ st, run cfg State.init (pre ++ t0 :: mid) = some st ∧
      st.s_curStep = cfg.N_STEPS ∧
      st.s_startTime = t0 ∧
      st.s_stepsSecs = totalSecs (cfg.steps.drop m) ∧
      st.s_status_hdr_buffer =
        snprintf 32 ("Start: " ++ strftime_I_M_S t0 ++ (if t0.tm_hour < 12 then "a" else "p") ++
          " for " ++ fmt_d st.s_stepsSecs ++ "s\n") ∧
      st.xm = (if t0.tm_hour < 12 then "a" else "p") := by
  obtain ⟨st, hrun, hR⟩ := run_reached cfg hpos (pre ++ t0 :: mid) (by omega)
  have hstart := startTicks_of_valid cfg m sm hm hsm
  have hl : (pre ++ t0 :: mid).length = pre.length + 1 + mid.length := by
    simp only [List.length_append, List.length_cons]
    omega
  have hlt : prefixSecs cfg.steps m < ((pre ++ t0 :: mid).length : Int) := by
    rw [hl]
    push_cast
    omega
  have htime : st.s_startTime = t0 := by
    rw [hR.start]
    unfold startTimeAfter
    rw [hstart]
    simp only
    rw [if_pos hlt, ← hpre, Int.toNat_ofNat, List.getD_append_right _ _ _ _ (le_refl _)]
    simp
  have hsecs : st.s_stepsSecs = totalSecs (cfg.steps.drop m) := by
    rw [hR.elapsed]
    unfold elapsedAfter
    rw [hstart]
    simp only
    rw [if_pos hlt, hlen]
    have := totalSecs_eq_prefix_add_drop cfg.steps m
    omega
  have hpos' : 0 < (pre ++ t0 :: mid).length := by
    rw [hl]
    omega
  obtain ⟨hh1, hh2⟩ := hR.heading hlen hpos'
  refine ⟨st, hrun, (hR.done hlen).1, htime, hsecs, ?_, ?_⟩
  · rw [hh1, htime, AmOrPm_eq]
  · rw [hh2, htime, AmOrPm_eq]

/-- The heading of the shipped sequence fits its buffer. -/
theorem shipped_heading_fits (t0 : Tm) (hv : t0.valid) :
    snprintf 32 ("Start: " ++ strftime_I_M_S t0 ++ (if t0.tm_hour < 12 then "a" else "p") ++
        " for " ++ fmt_d 120 ++ "s\n") =
      "Start: " ++ strftime_I_M_S t0 ++ (if t0.tm_hour < 12 then "a" else "p") ++ " for 120s\n" := by
  have hfig : fmt_d 120 = "120" := by decide
  have hind : (if t0.tm_hour < 12 then "a" else "p").length = 1 := by
    split_ifs <;> rfl
  rw [hfig, snprintf_of_fits]
  · simp only [String.append_assoc]
    rfl
  · simp only [String.length_append, strftime_I_M_S_length t0 hv, hind]
    decide

theorem not_text_mem_vibe_events (vibe : EVibe) (txt : String) :
    Event.text_layer_set_text txt ∉ vibe_events vibe := by
  unfold vibe_events
  split_ifs <;> simp

theorem not_text_mem_completion_iter (c : Completion) (n : Nat) (txt : String) :
    Event.text_layer_set_text txt ∉ completion_iter c n := by
  induction n with
  | zero => simp [completion_iter]
  | succ n ih =>
    intro hmem
    simp only [completion_iter, completion_body, List.mem_append] at hmem
    rcases hmem with (h | h) | h
    · exact not_text_mem_vibe_events c.vibe txt h
    · split_ifs at h <;> simp at h
    · exact ih h

/-- A tick in a state whose seconds left are negative only decrements them. -/
theorem tick_handler_negative_left (cfg : Config) (st : State) (j : Nat) (s : Step)
    (hj : cfg.steps[j]? = some s) (hcur : st.s_curStep = j)
    (hneg : st.s_stepSecsLeft < 0) (t : Tm) :
    ∃ st' ev, tick_handler cfg st t = some (st', ev) ∧ st'.s_curStep = st.s_curStep ∧
      st'.s_stepSecsLeft = st.s_stepSecsLeft - 1 := by
  have hlt := lt_length_of_step cfg.steps j s hj
  have hN : ¬ (st.s_curStep ≥ cfg.N_STEPS) := by
    unfold Config.N_STEPS
    omega
  have hstep : stepAt cfg.steps st.s_curStep = some s := by
    rw [hcur, stepAt_natCast, hj]
  have h0 : st.s_stepSecsLeft ≠ 0 := by omega
  have h1 : st.s_stepSecsLeft - 1 ≠ 0 := by omega
  unfold tick_handler
  rw [if_neg hN]
  simp only [hstep, if_neg h0, if_neg h1, if_neg hN]
  exact ⟨_, _, rfl, rfl, rfl⟩

/-- Once the seconds left are negative, no run leaves the step. -/
theorem run_negative_left (cfg : Config) (j : Nat) (s : Step) (hj : cfg.steps[j]? = some s)
    (ts : List Tm) (st : State) (hcur : st.s_curStep = j)
    (hneg : st.s_stepSecsLeft < 0) :
    ∃ st', run cfg st ts = some st' ∧ st'.s_curStep = j ∧
      st'.s_stepSecsLeft = st.s_stepSecsLeft - (ts.length : Int) := by
  induction ts generalizing st with
  | nil => exact ⟨st, rfl, hcur, by simp⟩
  | cons t ts ih =>
    obtain ⟨st1, ev, hth, hc1, hl1⟩ := tick_handler_negative_left cfg st j s hj hcur hneg t
    obtain ⟨st2, hrun, hc2, hl2⟩ := ih st1 (by rw [hc1, hcur]) (by omega)
    refine ⟨st2, ?_, hc2, ?_⟩
    · simp only [run, hth]
      exact hrun
    · rw [hl2, hl1]
      simp only [List.length_cons]
      push_cast
      omega

theorem elapsedAfter_nonneg (cfg : Config) (hpos : positiveDurations cfg.steps) (k : Nat) :
    0 ≤ elapsedAfter cfg k := by
  unfold elapsedAfter
  cases hst : startTicks cfg with
  | none => simp
  | some p =>
    have := startTicks_nonneg cfg hpos p hst
    simp only
    split_ifs <;> omega

theorem startTicks_of_ge (cfg : Config) (h : cfg.START_STEP_IX ≥ cfg.N_STEPS) :
    startTicks cfg = none := by
  unfold startTicks
  have hn : ¬ (0 ≤ cfg.START_STEP_IX ∧ cfg.START_STEP_IX < cfg.N_STEPS) := by
    intro hc
    omega
  rw [if_neg hn]

/-- The counters and the events of one tick depend on the counters before
it, not on the tick time nor on the recorded start time. -/
theorem tick_handler_counters (cfg : Config) (st1 st2 : State) (t1 t2 : Tm)
    (h : st1.counters = st2.counters) :
    (tick_handler cfg st1 t1).map (fun r => (r.1.counters, r.2)) =
      (tick_handler cfg st2 t2).map (fun r => (r.1.counters, r.2)) := by
  have hc : st1.s_curStep = st2.s_curStep := congrArg Prod.fst h
  have hl : st1.s_stepSecsLeft = st2.s_stepSecsLeft := congrArg (fun c => c.2.1) h
  have he : st1.s_stepsSecs = st2.s_stepsSecs := congrArg (fun c => c.2.2) h
  unfold tick_handler
  simp only [hc, hl, he]
  by_cases hN : st2.s_curStep ≥ cfg.N_STEPS
  · rw [if_pos hN, if_pos hN]
    simp only [Option.map_some', State.counters, hc, hl, he]
  · rw [if_neg hN, if_neg hN]
    cases hs : stepAt cfg.steps st2.s_curStep with
    | none => rfl
    | some pStep =>
      simp only
      split_ifs <;> rfl

/-- Two runs of the same length from states with the same counters end with
the same counters and emit the same events on every tick. -/
theorem run_counters (cfg : Config) (ts1 ts2 : List Tm) (st1 st2 : State)
    (hlen : ts1.length = ts2.length) (h : st1.counters = st2.counters) :
    (run cfg st1 ts1).map State.counters = (run cfg st2 ts2).map State.counters ∧
      trace cfg st1 ts1 = trace cfg st2 ts2 := by
  induction ts1 generalizing ts2 st1 st2 with
  | nil =>
    cases ts2 with
    | nil => exact ⟨by simp [run, h], rfl⟩
    | cons t ts => simp at hlen
  | cons a as ih =>
    cases ts2 with
    | nil => simp at hlen
    | cons b bs =>
      have hstep := tick_handler_counters cfg st1 st2 a b h
      simp only [run, trace]
      cases h1 : tick_handler cfg st1 a with
      | none =>
        cases h2 : tick_handler cfg st2 b with
        | none => exact ⟨rfl, rfl⟩
        | some r2 =>
          rw [h1, h2] at hstep
          simp at hstep
      | some r1 =>
        cases h2 : tick_handler cfg st2 b with
        | none =>
          rw [h1, h2] at hstep
          simp at hstep
        | some r2 =>
          rw [h1, h2] at hstep
          simp only [Option.map_some', Option.some.injEq, Prod.mk.injEq] at hstep
          obtain ⟨hcnt, hev⟩ := hstep
          obtain ⟨ih1, ih2⟩ := ih bs r1.1 r2.1 (by simpa using hlen) hcnt
          refine ⟨ih1, ?_⟩
          simp only [ih2, hev]

theorem sleepCount_append (xs ys : List Event) :
    sleepCount (xs ++ ys) = sleepCount xs + sleepCount ys := by
  simp [sleepCount]

theorem sleepMs_append (xs ys : List Event) : sleepMs (xs ++ ys) = sleepMs xs + sleepMs ys := by
  induction xs with
  | nil => simp [sleepMs]
  | cons x xs ih =>
    cases x <;> simp [sleepMs, ih, add_assoc]

theorem sleepCount_vibe_events (vibe : EVibe) : sleepCount (vibe_events vibe) = 0 := by
  cases vibe <;> rfl

theorem sleepMs_vibe_events (vibe : EVibe) : sleepMs (vibe_events vibe) = 0 := by
  cases vibe <;> rfl

theorem completion_body_of_sleep (c : Completion) (h : c.msSleep > 0) :
    completion_body c = vibe_events c.vibe ++ [Event.psleep c.msSleep] := by
  unfold completion_body
  rw [if_pos h]

theorem sleepCount_completion_iter (c : Completion) (h : c.msSleep > 0) (n : Nat) :
    sleepCount (completion_iter c n) = n := by
  induction n with
  | zero => rfl
  | succ n ih =>
    simp only [completion_iter, completion_body_of_sleep c h, sleepCount_append, ih,
      sleepCount_vibe_events]
    have : sleepCount [Event.psleep c.msSleep] = 1 := rfl
    omega

theorem sleepMs_completion_iter (c : Completion) (h : c.msSleep > 0) (n : Nat) :
    sleepMs (completion_iter c n) = (n : Int) * c.msSleep := by
  induction n with
  | zero => simp [completion_iter, sleepMs]
  | succ n ih =>
    simp only [completion_iter, completion_body_of_sleep c h, sleepMs_append, ih,
      sleepMs_vibe_events]
    have : sleepMs [Event.psleep c.msSleep] = c.msSleep := by simp [sleepMs]
    rw [this]
    push_cast
    ring

theorem completion_iter_ends_with_sleep (c : Completion) (h : c.msSleep > 0) (n : Nat) :
    ∃ front, completion_iter c (n + 1) = front ++ [Event.psleep c.msSleep] := by
  induction n with
  | zero =>
    refine ⟨vibe_events c.vibe, ?_⟩
    simp [completion_iter, completion_body_of_sleep c h]
  | succ n ih =>
    obtain ⟨front, hf⟩ := ih
    refine ⟨completion_body c ++ front, ?_⟩
    rw [completion_iter, hf, List.append_assoc]

theorem completion_iter_none (c : Completion) (h : c.msSleep > 0) (hv : c.vibe = EVibe.NONE)
    (n : Nat) : completion_iter c n = List.replicate n (Event.psleep c.msSleep) := by
  induction n with
  | zero => rfl
  | succ n ih =>
    rw [completion_iter, ih, completion_body_of_sleep c h, hv, List.replicate_succ]
    rfl

theorem snprintf_eq_iff (size : Nat) (text : String) (hsize : 0 < size) :
    snprintf size text = text ↔ text.length + 1 ≤ size := by
  constructor
  · intro h
    have hl := congrArg String.length h
    unfold snprintf at hl
    have e1 : (String.mk (List.take (size - 1) text.data)).length =
        (List.take (size - 1) text.data).length := rfl
    have e2 : text.length = text.data.length := rfl
    rw [e1, List.length_take, e2] at hl
    omega
  · exact snprintf_of_fits size text

theorem fmt_d_natCast (n : Nat) : fmt_d (n : Int) = Nat.repr n := rfl

theorem fmt_d_length_le (r : Int) (e : Nat) (he : 0 < e) (h0 : 0 ≤ r) (h : r < 10 ^ e) :
    (fmt_d r).length ≤ e := by
  obtain ⟨n, rfl⟩ : ∃ n : Nat, r = (n : Int) := ⟨r.toNat, by omega⟩
  rw [fmt_d_natCast]
  exact Nat.repr_length n e he (by exact_mod_cast h)

/-- Every status text of the shipped steps has at most 21 characters. -/
theorem shipped_text_length (s : Step) (hs : s ∈ steps) (r : Int) (h1 : 1 ≤ r)
    (h2 : r ≤ s.secs) : (s.descr ++ "\nSecs Left " ++ fmt_d r).length ≤ 21 := by
  have hmid : "\nSecs Left ".length = 11 := rfl
  simp only [steps, List.mem_cons, List.mem_singleton, List.not_mem_nil, or_false] at hs
  rcases hs with rfl | rfl | rfl | rfl | rfl
  · have hd : "Get Ready".length = 9 := rfl
    have hf := fmt_d_length_le r 1 (by decide) (by omega) (by simp only at h2; omega)
    simp only [String.length_append, hmid, hd]
    omega
  all_goals
    have hf := fmt_d_length_le r 2 (by decide) (by omega) (by simp only at h2; omega)
    simp only [String.length_append, hmid]
    have hd1 : "Quad1".length = 5 := rfl
    have hd2 : "Quad2".length = 5 := rfl
    have hd3 : "Quad3".length = 5 := rfl
    have hd4 : "Quad4".length = 5 := rfl
    omega

/-- The text of a minute tick, when the heading fits its buffer. -/
theorem tick_handler_minute_text (st : State) (t : Tm) (hv : t.valid)
    (hh : st.s_status_hdr_buffer.length ≤ 31) (hx : st.xm = "a" ∨ st.xm = "p") :
    (tick_handler_minute st t).2 =
      [Event.text_layer_set_text (st.s_status_hdr_buffer ++ "Now: " ++ strftime_I_M t ++
        (AmOrPm st.xm t).2)] ∧
    (st.s_status_hdr_buffer ++ "Now: " ++ strftime_I_M t ++ (AmOrPm st.xm t).2).length =
      st.s_status_hdr_buffer.length + 11 := by
  have hnow : "Now: ".length = 5 := rfl
  have hxl : st.xm.length = 1 := by
    rcases hx with h | h <;> rw [h] <;> rfl
  have hind := AmOrPm_length st.xm t hxl
  have hlen := strftime_I_M_length t hv
  have hl : (st.s_status_hdr_buffer ++ "Now: " ++ strftime_I_M t ++ (AmOrPm st.xm t).2).length =
      st.s_status_hdr_buffer.length + 11 := by
    simp only [String.length_append, hlen, hind, hnow]
  refine ⟨?_, hl⟩
  unfold tick_handler_minute
  simp only
  rw [snprintf_of_fits _ _ (by omega)]

/-- Minute ticks keep the cached heading, and `xm` stays "a" or "p". -/
theorem run_minute_keeps (ms : List Tm) (st : State) (hx : st.xm = "a" ∨ st.xm = "p") :
    (run_minute st ms).s_status_hdr_buffer = st.s_status_hdr_buffer ∧
      ((run_minute st ms).xm = "a" ∨ (run_minute st ms).xm = "p") := by
  induction ms generalizing st with
  | nil => exact ⟨rfl, hx⟩
  | cons t ts ih =>
    have hx' : (tick_handler_minute st t).1.xm = "a" ∨ (tick_handler_minute st t).1.xm = "p" := by
      show (AmOrPm st.xm t).1 = "a" ∨ (AmOrPm st.xm t).1 = "p"
      rw [AmOrPm_eq]
      simp only
      split_ifs
      · exact Or.inl rfl
      · exact hx
    obtain ⟨h1, h2⟩ := ih (tick_handler_minute st t).1 hx'
    exact ⟨h1, h2⟩

/-! ## ASCII text: characters and bytes -/

theorem utf8Size_of_ascii (c : Char) (h : c.toNat < 128) : c.utf8Size = 1 := by
  have hle : c.val ≤ UInt32.ofNatCore 0x7F (by decide) := by
    show c.val.toNat ≤ 127
    have : c.toNat = c.val.toNat := rfl
    omega
  unfold Char.utf8Size
  simp only [hle, if_true]

theorem utf8ByteSize_go_of_ascii (l : List Char) (h : ∀ c ∈ l, c.toNat < 128) :
    String.utf8ByteSize.go l = l.length := by
  induction l with
  | nil => rfl
  | cons c cs ih =>
    have h1 := utf8Size_of_ascii c (h c (List.mem_cons_self c cs))
    have h2 := ih (fun d hd => h d (List.mem_cons_of_mem c hd))
    show String.utf8ByteSize.go cs + c.utf8Size = (c :: cs).length
    rw [h1, h2]
    rfl

/-- An ASCII text has as many bytes as characters. -/
theorem utf8ByteSize_of_ascii (text : String) (h : isAscii text) :
    text.utf8ByteSize = text.length :=
  utf8ByteSize_go_of_ascii text.data h

theorem isAscii_append (a b : String) (ha : isAscii a) (hb : isAscii b) : isAscii (a ++ b) := by
  intro c hc
  rw [String.data_append, List.mem_append] at hc
  rcases hc with h | h
  · exact ha c h
  · exact hb c h

theorem digitChar_ascii (d : Nat) (hd : d < 10) : (Nat.digitChar d).toNat < 128 := by
  interval_cases d <;> decide

theorem toDigitsCore_ascii (fuel n : Nat) (ds : List Char)
    (h : ∀ c ∈ ds, c.toNat < 128) : ∀ c ∈ Nat.toDigitsCore 10 fuel n ds, c.toNat < 128 := by
  induction fuel generalizing n ds with
  | zero => exact h
  | succ fuel ih =>
    have hcons : ∀ c ∈ Nat.digitChar (n % 10) :: ds, c.toNat < 128 := by
      intro c hc
      rcases List.mem_cons.mp hc with h1 | h1
      · rw [h1]
        exact digitChar_ascii _ (Nat.mod_lt n (by decide))
      · exact h c h1
    unfold Nat.toDigitsCore
    simp only
    split_ifs
    · exact hcons
    · exact ih _ _ hcons

theorem repr_ascii (n : Nat) : isAscii (Nat.repr n) := by
  have h := toDigitsCore_ascii (n + 1) n [] (fun c hc => by simp at hc)
  exact h

/-- The decimal figures of `%d` are ASCII. -/
theorem fmt_d_ascii (r : Int) : isAscii (fmt_d r) := by
  cases r with
  | ofNat n => exact repr_ascii n
  | negSucc n => exact isAscii_append _ _ (by decide) (repr_ascii (n + 1))

/-- The text `snprintf` keeps of an ASCII text is the first `size - 1` bytes
of it: a prefix whose size in bytes is `size - 1`, or the whole text when
that is less. -/
theorem snprintf_bytes_of_ascii (size : Nat) (text : String) (h : isAscii text) :
    (snprintf size text).data = text.data.take (size - 1) ∧
    isAscii (snprintf size text) ∧
    (snprintf size text).utf8ByteSize = min (size - 1) text.utf8ByteSize := by
  have hk : isAscii (snprintf size text) := fun c hc => h c (List.mem_of_mem_take hc)
  refine ⟨rfl, hk, ?_⟩
  rw [utf8ByteSize_of_ascii _ hk, utf8ByteSize_of_ascii _ h]
  show (List.take (size - 1) text.data).length = min (size - 1) text.data.length
  exact List.length_take _ _

/-! ## The claims -/

set_option maxRecDepth 100000

/-- C1: from the initial state, over a step table with positive durations,
every run of `tick_handler` returns a state; `s_curStep` is below the step
count while fewer ticks than the sum of the durations were processed, equals
the step count when exactly that many were, and still equals it after any
larger number of ticks. -/
theorem C1_step_count_reached_on_final_tick (cfg : Config)
    (hpos : positiveDurations cfg.steps) (ts : List Tm) :
    ∃ st, run cfg State.init ts = some st ∧
      ((ts.length : Int) < totalSecs cfg.steps → st.s_curStep < cfg.N_STEPS) ∧
      ((ts.length : Int) = totalSecs cfg.steps → st.s_curStep = cfg.N_STEPS) ∧
      (totalSecs cfg.steps < (ts.length : Int) → st.s_curStep = cfg.N_STEPS) := by
  rcases lt_or_ge (ts.length : Int) (totalSecs cfg.steps) with hlt | hge
  · obtain ⟨st, j, s, hrun, _, hin⟩ := before_tick cfg hpos ts hlt
    refine ⟨st, hrun, ?_, ?_, ?_⟩
    · intro _
      have := lt_length_of_step cfg.steps j s hin.hj
      rw [hin.hcur]
      unfold Config.N_STEPS
      omega
    · intro h
      omega
    · intro h
      omega
  · obtain ⟨st, hrun, _, hR⟩ := run_past_completion cfg hpos ts hge
    have h0 := totalSecs_nonneg cfg.steps hpos
    have hl : ((ts.take (totalSecs cfg.steps).toNat).length : Int) = totalSecs cfg.steps := by
      rw [List.length_take]
      omega
    have hd := (hR.done hl).1
    refine ⟨st, hrun, ?_, ?_, ?_⟩
    · intro h
      omega
    · intro _
      exact hd
    · intro _
      exact hd

/-- C1 at the shipped step table: the durations are positive and sum to 125,
there are 5 steps, and the general statement applies to a run of 125 ticks. -/
theorem C1_shipped_witness :
    positiveDurations shipped.steps ∧ totalSecs shipped.steps = 125 ∧ shipped.N_STEPS = 5 ∧
    ∃ st, run shipped State.init (List.replicate 125 (clock 9 0 0)) = some st ∧
      (((List.replicate 125 (clock 9 0 0)).length : Int) < totalSecs shipped.steps →
        st.s_curStep < shipped.N_STEPS) ∧
      (((List.replicate 125 (clock 9 0 0)).length : Int) = totalSecs shipped.steps →
        st.s_curStep = shipped.N_STEPS) ∧
      (totalSecs shipped.steps < ((List.replicate 125 (clock 9 0 0)).length : Int) →
        st.s_curStep = shipped.N_STEPS) :=
  ⟨by decide, by decide, by decide,
    C1_step_count_reached_on_final_tick shipped (by decide) (List.replicate 125 (clock 9 0 0))⟩

/-- C2: in every state whose `s_curStep` is at least the step count, and for
every tick time, `tick_handler` returns the state unchanged (every variable,
the cached heading included) and emits no event at all; the table entry
`steps[s_curStep]`, which lies outside the array, is not read. -/
theorem C2_tick_after_completion_is_noop (cfg : Config) (st : State) (t : Tm)
    (h : st.s_curStep ≥ cfg.N_STEPS) :
    tick_handler cfg st t = some (st, []) ∧ stepAt cfg.steps st.s_curStep = none :=
  ⟨tick_handler_terminal cfg st t h, stepAt_of_ge cfg.steps st.s_curStep h⟩

/-- C2 at the shipped configuration, in the state a completed run leaves. -/
theorem C2_shipped_witness :
    afterMorningRun.s_curStep ≥ shipped.N_STEPS ∧
    tick_handler shipped afterMorningRun (clock 12 0 0) = some (afterMorningRun, []) ∧
    stepAt shipped.steps afterMorningRun.s_curStep = none :=
  ⟨by decide, C2_tick_after_completion_is_noop shipped afterMorningRun (clock 12 0 0) (by decide)⟩

/-- C3: in a run from the initial state over a step table with positive
durations, let the tick after the ticks `pre` fall in step `j` (so its number
`pre.length + 1` lies between `prefixSecs j + 1` and `prefixSecs j + secs`).
The tick is processed in step `j`; the seconds left after the fresh-step
initialisation equal the full duration exactly when the tick is number
`prefixSecs j + 1`; the step-entry cue `vibe_events s.vibe` (one long pulse
for LONG, one short pulse for SHORT, nothing for NONE) is emitted on that tick
and on no other tick of the step; and apart from the cue a tick emits only
the display update, preceded on the completing tick by the completion action. -/
theorem C3_step_entry_cue_once_per_step (cfg : Config) (hpos : positiveDurations cfg.steps)
    (pre : List Tm) (t : Tm) (j : Nat) (s : Step) (hj : cfg.steps[j]? = some s)
    (hlo : prefixSecs cfg.steps j ≤ (pre.length : Int))
    (hhi : (pre.length : Int) < prefixSecs cfg.steps j + s.secs) :
    ∃ st st' ev, run cfg State.init pre = some st ∧ tick_handler cfg st t = some (st', ev) ∧
      st.s_curStep = j ∧
      ((if st.s_stepSecsLeft = 0 then s.secs else st.s_stepSecsLeft) = s.secs ↔
        (pre.length : Int) + 1 = prefixSecs cfg.steps j + 1) ∧
      ev = (if (pre.length : Int) + 1 = prefixSecs cfg.steps j + 1 then vibe_events s.vibe else []) ++
        (if (pre.length : Int) + 1 = totalSecs cfg.steps then
          completion_loop cfg.s_completion ++
            [Event.tick_timer_service_unsubscribe,
             Event.tick_timer_service_subscribe TimeUnits.MINUTE_UNIT Handler.tick_handler_minute]
         else []) ++
        [Event.text_layer_set_text (snprintf 32 (s.descr ++ "\nSecs Left " ++
          fmt_d (prefixSecs cfg.steps j + s.secs - pre.length)))] ∧
      vibe_events EVibe.LONG = [Event.vibes_long_pulse] ∧
      vibe_events EVibe.SHORT = [Event.vibes_short_pulse] ∧
      vibe_events EVibe.NONE = [] := by
  have hle := prefixSecs_succ_le_total cfg.steps hpos j s hj
  obtain ⟨st, j', s', hrun, _, hin⟩ := before_tick cfg hpos pre (by omega)
  have hjj : j' = j :=
    step_index_unique cfg.steps hpos pre.length j' j s' s hin.hj hj hin.hlo hin.hhi hlo hhi
  subst hjj
  have hss : s' = s := Option.some.inj (hin.hj.symm.trans hj)
  subst hss
  obtain ⟨st', ev, hth, _, _, _, _, h5⟩ := tick_handler_inStep cfg hpos pre.length st j' s' hin t
  have hsecs := secs_pos_of_step cfg.steps hpos j' s' hj
  refine ⟨st, st', ev, hrun, hth, hin.hcur, ?_, ?_, rfl, rfl, rfl⟩
  · rw [hin.hleft]
    split_ifs <;> omega
  · have hc : ((pre.length : Int) + 1 = prefixSecs cfg.steps j' + 1) ↔
        ((pre.length : Int) = prefixSecs cfg.steps j') := by omega
    simp only [hc]
    by_cases hlast : (pre.length : Int) + 1 = totalSecs cfg.steps
    · rw [if_pos hlast] at h5
      rw [if_pos hlast, h5.2.2]
      simp
    · rw [if_neg hlast] at h5
      rw [if_neg hlast, h5.2.2]
      simp

/-- C3 at the shipped configuration: tick 6 enters Quad1 and emits one long
pulse before the display update. -/
theorem C3_shipped_witness :
    ∃ st st' ev, run shipped State.init (List.replicate 5 (clock 9 0 0)) = some st ∧
      tick_handler shipped st (clock 9 0 5) = some (st', ev) ∧
      ev = [Event.vibes_long_pulse, Event.text_layer_set_text "Quad1\nSecs Left 30"] := by
  obtain ⟨st, st', ev, h1, h2, _, _, h5, _⟩ :=
    C3_step_entry_cue_once_per_step shipped (by decide) (List.replicate 5 (clock 9 0 0))
      (clock 9 0 5) 1 { secs := 30, descr := "Quad1", vibe := EVibe.LONG } (by decide)
      (by decide) (by decide)
  refine ⟨st, st', ev, h1, h2, ?_⟩
  rw [h5]
  decide

/-- C4: in a run from the initial state with positive durations and
`START_STEP_IX = m` an index of the step table, let `P = prefixSecs m` be the
sum of the durations before the starting step. For every tick up to
completion: the restart branch of lines 87 and 93, which sets `s_stepsSecs`
to zero, is taken exactly when the tick is number `P + 1`; the tick leaves
`s_stepsSecs` at one more than that (reset or previous) value; from tick
`P + 1` on the counter is the number of ticks since tick `P`; and on the
completing tick it equals the sum of the durations from step `m` to the end. -/
theorem C4_elapsed_counter_reset_once (cfg : Config) (hpos : positiveDurations cfg.steps)
    (m : Nat) (sm : Step) (hm : cfg.START_STEP_IX = (m : Int)) (hsm : cfg.steps[m]? = some sm)
    (pre : List Tm) (t : Tm) (hlt : (pre.length : Int) < totalSecs cfg.steps) :
    ∃ st st' ev pStep, run cfg State.init pre = some st ∧
      tick_handler cfg st t = some (st', ev) ∧
      stepAt cfg.steps st.s_curStep = some pStep ∧
      (((if st.s_stepSecsLeft = 0 then pStep.secs else st.s_stepSecsLeft) = pStep.secs ∧
          st.s_curStep = cfg.START_STEP_IX) ↔
        (pre.length : Int) + 1 = prefixSecs cfg.steps m + 1) ∧
      st'.s_stepsSecs =
        (if (pre.length : Int) + 1 = prefixSecs cfg.steps m + 1 then 0 else st.s_stepsSecs) + 1 ∧
      (prefixSecs cfg.steps m ≤ (pre.length : Int) →
        st'.s_stepsSecs = (pre.length : Int) + 1 - prefixSecs cfg.steps m) ∧
      ((pre.length : Int) + 1 = totalSecs cfg.steps →
        st'.s_curStep = cfg.N_STEPS ∧ st'.s_stepsSecs = totalSecs (cfg.steps.drop m)) := by
  obtain ⟨st, j, s, st', ev, hrun, hR, hin, hth, _, hR'⟩ := next_tick cfg hpos pre t hlt
  obtain ⟨st2, ev2, hth2, _, _, h3, _, _⟩ := tick_handler_inStep cfg hpos pre.length st j s hin t
  have hsame : (st', ev) = (st2, ev2) := Option.some.inj (hth.symm.trans hth2)
  have hst : st2 = st' := (congrArg Prod.fst hsame).symm
  rw [hst] at h3
  have hrst := restart_iff cfg hpos pre.length st j s hin
  have hstart := startTicks_of_valid cfg m sm hm hsm
  have hsecs := secs_pos_of_step cfg.steps hpos j s hin.hj
  have hl : (pre ++ [t]).length = pre.length + 1 := by simp
  have hkey : ((pre.length : Int) = prefixSecs cfg.steps j ∧ (j : Int) = cfg.START_STEP_IX) ↔
      (pre.length : Int) + 1 = prefixSecs cfg.steps m + 1 := by
    rw [hrst, hstart, Option.some.injEq]
    omega
  have hstep : stepAt cfg.steps st.s_curStep = some s := by
    rw [hin.hcur, stepAt_natCast, hin.hj]
  have hel : st'.s_stepsSecs = elapsedAfter cfg (pre.length + 1) := by
    rw [hR'.elapsed, hl]
  refine ⟨st, st', ev, s, hrun, hth, hstep, ?_, ?_, ?_, ?_⟩
  · have hfresh : ((if st.s_stepSecsLeft = 0 then s.secs else st.s_stepSecsLeft) = s.secs) ↔
        (pre.length : Int) = prefixSecs cfg.steps j := by
      have hlo := hin.hlo
      have hhi := hin.hhi
      rw [hin.hleft]
      split_ifs <;> omega
    rw [← hkey, hin.hcur, hfresh]
  · rw [h3]
    simp only [hkey]
  · intro hP
    rw [hel]
    unfold elapsedAfter
    rw [hstart]
    simp only
    push_cast
    have hc : prefixSecs cfg.steps m < (pre.length : Int) + 1 := by omega
    rw [if_pos hc]
  · intro hd
    have hl' : ((pre ++ [t]).length : Int) = totalSecs cfg.steps := by
      rw [hl]
      push_cast
      exact hd
    refine ⟨(hR'.done hl').1, ?_⟩
    rw [hel]
    unfold elapsedAfter
    rw [hstart]
    simp only
    push_cast
    have hsplit := totalSecs_eq_prefix_add_drop cfg.steps m
    have hle := prefixSecs_succ_le_total cfg.steps hpos m sm hsm
    have hpm := secs_pos_of_step cfg.steps hpos m sm hsm
    have hc : prefixSecs cfg.steps m < (pre.length : Int) + 1 := by omega
    rw [if_pos hc]
    omega

/-- C4 at the shipped configuration: the completing tick, number 125, leaves
the elapsed counter at 120, the sum of the four Quad steps. -/
theorem C4_shipped_witness :
    ∃ st st' ev, run shipped State.init (List.replicate 124 (clock 9 0 0)) = some st ∧
      tick_handler shipped st (clock 9 2 4) = some (st', ev) ∧
      st'.s_curStep = 5 ∧ st'.s_stepsSecs = 120 := by
  obtain ⟨st, st', ev, _, h1, h2, _, _, _, _, h7⟩ :=
    C4_elapsed_counter_reset_once shipped (by decide) 1
      { secs := 30, descr := "Quad1", vibe := EVibe.LONG } (by decide) (by decide)
      (List.replicate 124 (clock 9 0 0)) (clock 9 2 4) (by decide)
  have h8 := h7 (by decide)
  refine ⟨st, st', ev, h1, h2, ?_, ?_⟩
  · rw [h8.1]
    decide
  · rw [h8.2]
    decide

/-- C5 (as stated, refuted): in the shipped scenario the value of
`s_stepsSecs` stored once the 6th tick has been processed is 1, not 0, and
the value stored once the 35th tick has been processed is 30, not 29. -/
theorem C5_stored_value_counterexample :
    (run shipped State.init (List.replicate 6 (clock 9 0 0))).map State.s_stepsSecs = some 1 ∧
    (run shipped State.init (List.replicate 6 (clock 9 0 0))).map State.s_stepsSecs ≠ some 0 ∧
    (run shipped State.init (List.replicate 35 (clock 9 0 0))).map State.s_stepsSecs = some 30 ∧
    (run shipped State.init (List.replicate 35 (clock 9 0 0))).map State.s_stepsSecs ≠ some 29 := by
  decide

/-- C5 (amended): in the shipped scenario, whatever the tick times, the value
of `s_stepsSecs` stored once `tick_handler` has processed the 6th tick from
the initial state is 1, and the value stored once it has processed the 35th
tick is 30. -/
theorem C5_elapsed_counter_after_ticks_6_and_35 (ts6 ts35 : List Tm) (h6 : ts6.length = 6)
    (h35 : ts35.length = 35) :
    (run shipped State.init ts6).map State.s_stepsSecs = some 1 ∧
    (run shipped State.init ts35).map State.s_stepsSecs = some 30 := by
  have hpos : positiveDurations shipped.steps := by decide
  obtain ⟨st6, hrun6, hR6⟩ := run_reached shipped hpos ts6 (by rw [h6]; decide)
  obtain ⟨st35, hrun35, hR35⟩ := run_reached shipped hpos ts35 (by rw [h35]; decide)
  constructor
  · rw [hrun6, Option.map_some', hR6.elapsed, h6]
    decide
  · rw [hrun35, Option.map_some', hR35.elapsed, h35]
    decide

/-- C5 (amended) on two concrete lists of tick times. -/
theorem C5_amended_witness :
    (run shipped State.init (List.replicate 6 (clock 13 30 0))).map State.s_stepsSecs = some 1 ∧
    (run shipped State.init (List.replicate 35 (clock 13 30 0))).map State.s_stepsSecs = some 30 :=
  C5_elapsed_counter_after_ticks_6_and_35 (List.replicate 6 (clock 13 30 0))
    (List.replicate 35 (clock 13 30 0)) (by decide) (by decide)

/-- C6 (as stated, refuted): with the shipped steps and a completion action
of three cues of type NONE, the completing tick 125 sleeps three times and
emits no pulse at all, although `nVibes` is 3. -/
theorem C6_none_cue_counterexample :
    (nextTick silentCompletion (List.replicate 124 (clock 9 0 0)) (clock 9 2 4)).map Prod.snd =
      some [Event.psleep 333, Event.psleep 333, Event.psleep 333,
            Event.tick_timer_service_unsubscribe,
            Event.tick_timer_service_subscribe TimeUnits.MINUTE_UNIT Handler.tick_handler_minute,
            Event.text_layer_set_text "Quad4\nSecs Left 1"] ∧
    (nextTick silentCompletion (List.replicate 124 (clock 9 0 0)) (clock 9 2 4)).map
      (fun r => (pulseCount r.2 : Int)) = some 0 ∧
    silentCompletion.s_completion.nVibes = 3 := by
  decide

/-- C6 (amended): for every configuration with positive durations and every
tick of a run from the initial state, numbered `pre.length + 1`: before the
completing tick the events are a step-entry cue (possibly empty) and the
display update; on the completing tick, whose number is the sum of the
durations, they are the cue, the completion loop, the change of tick
subscription and the display update; after it there are none. The completion
loop is `nVibes` iterations (none when `nVibes` is negative), each the pulse
of the configured type, which is no pulse for NONE, followed by a sleep of
`msSleep` when `msSleep > 0`; so it emits `nVibes` pulses when the type is
SHORT or LONG and none when it is NONE. -/
theorem C6_completion_action_on_one_tick (cfg : Config) (hpos : positiveDurations cfg.steps)
    (pre : List Tm) (t : Tm) :
    ∃ st st' ev, run cfg State.init pre = some st ∧ tick_handler cfg st t = some (st', ev) ∧
      ((pre.length : Int) + 1 < totalSecs cfg.steps →
        ∃ cue txt, (cue = [] ∨ ∃ s ∈ cfg.steps, cue = vibe_events s.vibe) ∧
          ev = cue ++ [Event.text_layer_set_text txt]) ∧
      ((pre.length : Int) + 1 = totalSecs cfg.steps →
        ∃ cue txt, (cue = [] ∨ ∃ s ∈ cfg.steps, cue = vibe_events s.vibe) ∧
          ev = cue ++ completion_loop cfg.s_completion ++
            [Event.tick_timer_service_unsubscribe,
             Event.tick_timer_service_subscribe TimeUnits.MINUTE_UNIT Handler.tick_handler_minute,
             Event.text_layer_set_text txt]) ∧
      (totalSecs cfg.steps < (pre.length : Int) + 1 → ev = []) ∧
      completion_loop cfg.s_completion =
        (List.replicate cfg.s_completion.nVibes.toNat
          (vibe_events cfg.s_completion.vibe ++
            (if cfg.s_completion.msSleep > 0 then [Event.psleep cfg.s_completion.msSleep]
             else []))).flatten ∧
      pulseCount (completion_loop cfg.s_completion) =
        (if cfg.s_completion.vibe = EVibe.NONE then 0 else cfg.s_completion.nVibes.toNat) := by
  have hloop : completion_loop cfg.s_completion =
      (List.replicate cfg.s_completion.nVibes.toNat
        (vibe_events cfg.s_completion.vibe ++
          (if cfg.s_completion.msSleep > 0 then [Event.psleep cfg.s_completion.msSleep]
           else []))).flatten :=
    completion_iter_eq_flatten cfg.s_completion _
  have hcount : pulseCount (completion_loop cfg.s_completion) =
      (if cfg.s_completion.vibe = EVibe.NONE then 0 else cfg.s_completion.nVibes.toNat) :=
    pulseCount_completion_iter cfg.s_completion _
  rcases lt_or_ge (pre.length : Int) (totalSecs cfg.steps) with hlt | hge
  · obtain ⟨st, j, s, hrun, _, hin⟩ := before_tick cfg hpos pre hlt
    obtain ⟨st', ev, hth, _, _, _, _, h5⟩ := tick_handler_inStep cfg hpos pre.length st j s hin t
    have hcue : (if (pre.length : Int) = prefixSecs cfg.steps j then vibe_events s.vibe else []) = [] ∨
        ∃ s' ∈ cfg.steps,
          (if (pre.length : Int) = prefixSecs cfg.steps j then vibe_events s.vibe else []) =
            vibe_events s'.vibe := by
      by_cases hk : (pre.length : Int) = prefixSecs cfg.steps j
      · right
        exact ⟨s, List.getElem?_mem hin.hj, by rw [if_pos hk]⟩
      · left
        rw [if_neg hk]
    refine ⟨st, st', ev, hrun, hth, ?_, ?_, ?_, hloop, hcount⟩
    · intro hb
      have hne : ¬ ((pre.length : Int) + 1 = totalSecs cfg.steps) := by omega
      rw [if_neg hne] at h5
      exact ⟨_, _, hcue, h5.2.2⟩
    · intro hd
      rw [if_pos hd] at h5
      exact ⟨_, _, hcue, h5.2.2⟩
    · intro ha
      omega
  · obtain ⟨st, hrun, _, hR⟩ := run_past_completion cfg hpos pre hge
    have h0 := totalSecs_nonneg cfg.steps hpos
    have hl : ((pre.take (totalSecs cfg.steps).toNat).length : Int) = totalSecs cfg.steps := by
      rw [List.length_take]
      omega
    have hterm : st.s_curStep ≥ cfg.N_STEPS := by rw [(hR.done hl).1]
    refine ⟨st, st, [], hrun, tick_handler_terminal cfg st t hterm, ?_, ?_, ?_, hloop, hcount⟩
    · intro hb
      omega
    · intro hd
      omega
    · intro _
      rfl

/-- C6 (amended) at the shipped configuration: tick 125 emits exactly four
short pulses, each followed by a sleep of 333 ms, then switches the tick
subscription and updates the display. -/
theorem C6_shipped_witness :
    ∃ st st' ev, run shipped State.init (List.replicate 124 (clock 9 0 0)) = some st ∧
      tick_handler shipped st (clock 9 2 4) = some (st', ev) ∧
      ev = [Event.vibes_short_pulse, Event.psleep 333, Event.vibes_short_pulse, Event.psleep 333,
            Event.vibes_short_pulse, Event.psleep 333, Event.vibes_short_pulse, Event.psleep 333,
            Event.tick_timer_service_unsubscribe,
            Event.tick_timer_service_subscribe TimeUnits.MINUTE_UNIT Handler.tick_handler_minute,
            Event.text_layer_set_text "Quad4\nSecs Left 1"] ∧
      pulseCount (completion_loop shipped.s_completion) = 4 := by
  obtain ⟨st, st', ev, h1, h2, _, _, _, _, h7⟩ :=
    C6_completion_action_on_one_tick shipped (by decide) (List.replicate 124 (clock 9 0 0))
      (clock 9 2 4)
  refine ⟨st, st', ev, h1, h2, ?_, ?_⟩
  · have hn : nextTick shipped (List.replicate 124 (clock 9 0 0)) (clock 9 2 4) = some (st', ev) := by
      unfold nextTick
      rw [h1]
      exact h2
    have he : (nextTick shipped (List.replicate 124 (clock 9 0 0)) (clock 9 2 4)).map Prod.snd =
        some ev := by
      rw [hn]
      rfl
    exact Option.some.inj (he.symm.trans (by decide))
  · rw [h7]
    decide

/-- C7 (the code at the failing input): a call of `AmOrPm` with hour 13 made
after a call with hour 11 returns "a", because the `static` variable still
holds the "a" stored by the earlier call; in general the function returns "a"
for an hour below 12 and otherwise whatever the variable held before. -/
theorem C7_AmOrPm_keeps_a_after_morning_call :
    (AmOrPm (AmOrPm "p" (clock 11 0 0)).1 (clock 13 0 0)).2 = "a" ∧
    (AmOrPm "p" (clock 13 0 0)).2 = "p" ∧
    ∀ (xm : String) (t : Tm), (AmOrPm xm t).2 = (if t.tm_hour < 12 then "a" else xm) ∧
      (AmOrPm xm t).1 = (AmOrPm xm t).2 :=
  ⟨by decide, by decide, fun _ _ => ⟨rfl, rfl⟩⟩

/-- C8: in a run from the initial state with positive durations whose
starting step `START_STEP_IX = m` is an index of the table, let `t0` be the
time of the tick that enters the starting step (the tick after the
`prefixSecs m` ticks `pre`) and let the run end with the completing tick.
Then the recorded start time is `t0`, the elapsed counter is the sum of the
durations from step `m` on, and the cached heading is the text "Start: ",
the 12-hour `HH:MM:SS` of `t0`, "a" or "p" according to whether the hour of
`t0` is below 12, " for ", the elapsed counter and "s" with a newline, cut to
the 31 characters of its buffer. For the shipped steps and starting index
`t0` is the time of tick 6 and the heading is exactly
"Start: HH:MM:SSx for 120s" with a newline. -/
theorem C8_completion_heading (cfg : Config) (hpos : positiveDurations cfg.steps)
    (m : Nat) (sm : Step) (hm : cfg.START_STEP_IX = (m : Int)) (hsm : cfg.steps[m]? = some sm)
    (pre : List Tm) (t0 : Tm) (mid : List Tm) (hv : t0.valid)
    (hpre : (pre.length : Int) = prefixSecs cfg.steps m)
    (hlen : ((pre ++ t0 :: mid).length : Int) = totalSecs cfg.steps) :
    ∃ st, run cfg State.init (pre ++ t0 :: mid) = some st ∧
      st.s_curStep = cfg.N_STEPS ∧
      st.s_startTime = t0 ∧
      st.s_stepsSecs = totalSecs (cfg.steps.drop m) ∧
      st.s_status_hdr_buffer =
        snprintf 32 ("Start: " ++ strftime_I_M_S t0 ++ (if t0.tm_hour < 12 then "a" else "p") ++
          " for " ++ fmt_d st.s_stepsSecs ++ "s\n") ∧
      (cfg.steps = steps → cfg.START_STEP_IX = START_STEP_IX →
        pre.length = 5 ∧
        st.s_status_hdr_buffer =
          "Start: " ++ strftime_I_M_S t0 ++ (if t0.tm_hour < 12 then "a" else "p") ++
            " for 120s\n") := by
  obtain ⟨st, hrun, hcur, htime, hsecs, hhdr, _⟩ :=
    completed_run cfg hpos m sm hm hsm pre t0 mid hpre hlen
  refine ⟨st, hrun, hcur, htime, hsecs, hhdr, ?_⟩
  intro hs hS
  have hm1 : m = 1 := by
    have h1 : START_STEP_IX = 1 := rfl
    omega
  subst hm1
  have hp5 : prefixSecs cfg.steps 1 = 5 := by
    rw [hs]
    decide
  have h120 : st.s_stepsSecs = 120 := by
    rw [hsecs, hs]
    decide
  refine ⟨by omega, ?_⟩
  rw [hhdr, h120]
  exact shipped_heading_fits t0 hv

/-- C8 at the shipped configuration, with the ticks one second apart from
09:15:01: the heading carries the time of tick 6, 09:15:06. -/
theorem C8_shipped_witness :
    ∃ st, run shipped State.init
        (List.replicate 5 (clock 9 15 1) ++ clock 9 15 6 :: List.replicate 119 (clock 9 16 0)) =
          some st ∧
      st.s_status_hdr_buffer = "Start: 09:15:06a for 120s\n" := by
  obtain ⟨st, h1, _, _, _, _, h6⟩ :=
    C8_completion_heading shipped (by decide) 1
      { secs := 30, descr := "Quad1", vibe := EVibe.LONG } (by decide) (by decide)
      (List.replicate 5 (clock 9 15 1)) (clock 9 15 6) (List.replicate 119 (clock 9 16 0))
      (by decide) (by decide) (by decide)
  refine ⟨st, h1, ?_⟩
  rw [(h6 rfl rfl).2]
  decide

/-- C9: for every state whose cached heading `h` fits its 32-byte buffer and
whose `AmOrPm` variable holds "a" or "p", and every valid tick time `t`,
`tick_handler_minute` displays exactly `h`, "Now: ", the two-digit 12-hour
hour of `t` (12 for hours 0 and 12, 01 for hour 13), ":", the two-digit
minute and the indicator `AmOrPm` returns for `t`; it changes none of
`s_curStep`, `s_stepSecsLeft`, `s_stepsSecs`, `s_startTime` and the cached
heading. After a run of the shipped sequence whose tick 6 carries the valid
time `t0`, the display reads "Start: HH:MM:SSx for 120s", a newline, and
"Now: HH:MMy", where `x` and `y` are "a" or "p". -/
theorem C9_minute_display (st : State) (t : Tm) (hh : st.s_status_hdr_buffer.length ≤ 31)
    (hx : st.xm = "a" ∨ st.xm = "p") (hv : t.valid)
    (pre : List Tm) (t0 : Tm) (mid : List Tm) (h5 : pre.length = 5) (h119 : mid.length = 119)
    (hv0 : t0.valid) :
    (tick_handler_minute st t).2 =
        [Event.text_layer_set_text (st.s_status_hdr_buffer ++ "Now: " ++
          fmt_02d (hour12 t.tm_hour) ++ ":" ++ fmt_02d t.tm_min ++ (AmOrPm st.xm t).2)] ∧
      (tick_handler_minute st t).1.s_curStep = st.s_curStep ∧
      (tick_handler_minute st t).1.s_stepSecsLeft = st.s_stepSecsLeft ∧
      (tick_handler_minute st t).1.s_stepsSecs = st.s_stepsSecs ∧
      (tick_handler_minute st t).1.s_startTime = st.s_startTime ∧
      (tick_handler_minute st t).1.s_status_hdr_buffer = st.s_status_hdr_buffer ∧
      fmt_02d (hour12 0) = "12" ∧ fmt_02d (hour12 12) = "12" ∧ fmt_02d (hour12 13) = "01" ∧
      ∃ st1, run shipped State.init (pre ++ t0 :: mid) = some st1 ∧
        (tick_handler_minute st1 t).2 =
          [Event.text_layer_set_text ("Start: " ++ strftime_I_M_S t0 ++
            (if t0.tm_hour < 12 then "a" else "p") ++ " for 120s\n" ++ "Now: " ++
            fmt_02d (hour12 t.tm_hour) ++ ":" ++ fmt_02d t.tm_min ++
            (if t.tm_hour < 12 then "a" else if t0.tm_hour < 12 then "a" else "p"))] := by
  have hnow : "Now: ".length = 5 := rfl
  have hfits : ∀ (s : State), s.s_status_hdr_buffer.length ≤ 31 → (s.xm = "a" ∨ s.xm = "p") →
      (tick_handler_minute s t).2 =
        [Event.text_layer_set_text (s.s_status_hdr_buffer ++ "Now: " ++
          fmt_02d (hour12 t.tm_hour) ++ ":" ++ fmt_02d t.tm_min ++ (AmOrPm s.xm t).2)] := by
    intro s hs hsx
    have hxl : s.xm.length = 1 := by
      rcases hsx with h | h <;> rw [h] <;> rfl
    have hind := AmOrPm_length s.xm t hxl
    have hlen := strftime_I_M_length t hv
    unfold tick_handler_minute
    simp only
    rw [snprintf_of_fits]
    · simp only [strftime_I_M, String.append_assoc]
    · simp only [String.length_append, hlen, hind, hnow]
      omega
  refine ⟨hfits st hh hx, rfl, rfl, rfl, rfl, rfl, by decide, by decide, by decide, ?_⟩
  have hlen : ((pre ++ t0 :: mid).length : Int) = totalSecs shipped.steps := by
    have e : totalSecs shipped.steps = 125 := by decide
    rw [e]
    simp only [List.length_append, List.length_cons, h5, h119]
    rfl
  have hpre : (pre.length : Int) = prefixSecs shipped.steps 1 := by
    have e : prefixSecs shipped.steps 1 = 5 := by decide
    rw [e, h5]
    rfl
  obtain ⟨st1, hrun, _, _, hsecs, hhdr, hxm⟩ :=
    completed_run shipped (by decide) 1 { secs := 30, descr := "Quad1", vibe := EVibe.LONG }
      rfl (by decide) pre t0 mid hpre hlen
  have h120 : st1.s_stepsSecs = 120 := by
    rw [hsecs]
    decide
  rw [h120, shipped_heading_fits t0 hv0] at hhdr
  have hind : (if t0.tm_hour < 12 then "a" else "p").length = 1 := by
    split_ifs <;> rfl
  have hl1 : st1.s_status_hdr_buffer.length ≤ 31 := by
    rw [hhdr]
    simp only [String.length_append, strftime_I_M_S_length t0 hv0, hind]
    decide
  have hx1 : st1.xm = "a" ∨ st1.xm = "p" := by
    rw [hxm]
    split_ifs
    · exact Or.inl rfl
    · exact Or.inr rfl
  refine ⟨st1, hrun, ?_⟩
  rw [hfits st1 hl1 hx1, hhdr, hxm, AmOrPm_eq]

/-- C9 after a concrete run of the shipped sequence that entered Quad1 at
11:58:05: the minute tick of 13:07 displays hour 01, and the indicator is the
one `AmOrPm` returns in that state. -/
theorem C9_shipped_witness :
    (tick_handler_minute afterMorningRun (clock 13 7 0)).2 =
        [Event.text_layer_set_text "Start: 11:58:05a for 120s\nNow: 01:07a"] ∧
    ∃ st1, run shipped State.init
        (List.replicate 5 (clock 11 58 0) ++ clock 11 58 5 :: List.replicate 119 (clock 11 59 0)) =
          some st1 ∧
      (tick_handler_minute st1 (clock 13 7 0)).2 =
        [Event.text_layer_set_text "Start: 11:58:05a for 120s\nNow: 01:07a"] := by
  obtain ⟨h0, _, _, _, _, _, _, _, _, st1, h1, h2⟩ :=
    C9_minute_display afterMorningRun (clock 13 7 0) (by decide) (by decide) (by decide)
      (List.replicate 5 (clock 11 58 0)) (clock 11 58 5) (List.replicate 119 (clock 11 59 0))
      (by decide) (by decide) (by decide)
  refine ⟨?_, st1, h1, ?_⟩
  · rw [h0]
    decide
  · rw [h2]
    decide

/-- C12: every state reached from the initial state by any number of calls
of `tick_handler` (step durations all positive) has `0 <= s_curStep <=
N_STEPS` and `0 <= s_stepSecsLeft`; when `s_curStep < N_STEPS` the entry
`steps[s_curStep]` exists and `s_stepSecsLeft` is below its duration, and when
`s_curStep = N_STEPS` then `s_stepSecsLeft = 0`. One more tick from such a
state returns a state, so its read of `steps[s_curStep]` is within the array,
and it leaves `s_curStep` unchanged or adds one to it. -/
theorem C12_reachable_state_invariants (cfg : Config) (hpos : positiveDurations cfg.steps)
    (ts : List Tm) (t : Tm) :
    ∃ st st' ev, run cfg State.init ts = some st ∧ tick_handler cfg st t = some (st', ev) ∧
      0 ≤ st.s_curStep ∧ st.s_curStep ≤ cfg.N_STEPS ∧ 0 ≤ st.s_stepSecsLeft ∧
      (st.s_curStep < cfg.N_STEPS →
        ∃ s, stepAt cfg.steps st.s_curStep = some s ∧ st.s_stepSecsLeft < s.secs) ∧
      (st.s_curStep = cfg.N_STEPS → st.s_stepSecsLeft = 0) ∧
      (st'.s_curStep = st.s_curStep ∨ st'.s_curStep = st.s_curStep + 1) := by
  rcases lt_or_ge (ts.length : Int) (totalSecs cfg.steps) with hlt | hge
  · obtain ⟨st, j, s, hrun, _, hin⟩ := before_tick cfg hpos ts hlt
    obtain ⟨st', ev, hth, _, h2, _⟩ := tick_handler_inStep cfg hpos ts.length st j s hin t
    obtain ⟨hj, hlo, hhi, hcur, hleft⟩ := hin
    have hjl := lt_length_of_step cfg.steps j s hj
    have hN : st.s_curStep < cfg.N_STEPS := by
      unfold Config.N_STEPS
      omega
    have hstep : stepAt cfg.steps st.s_curStep = some s := by
      rw [hcur, stepAt_natCast, hj]
    have hsecs := secs_pos_of_step cfg.steps hpos j s hj
    refine ⟨st, st', ev, hrun, hth, by omega, le_of_lt hN, ?_, ?_, ?_, ?_⟩
    · rw [hleft]
      split_ifs <;> omega
    · intro _
      refine ⟨s, hstep, ?_⟩
      rw [hleft]
      split_ifs <;> omega
    · intro h
      omega
    · rw [h2, hcur]
      split_ifs
      · exact Or.inr rfl
      · exact Or.inl rfl
  · obtain ⟨st, hrun, _, hR⟩ := run_past_completion cfg hpos ts hge
    have h0 := totalSecs_nonneg cfg.steps hpos
    have hl : ((ts.take (totalSecs cfg.steps).toNat).length : Int) = totalSecs cfg.steps := by
      rw [List.length_take]
      omega
    obtain ⟨hc, hs⟩ := hR.done hl
    have hterm : st.s_curStep ≥ cfg.N_STEPS := by rw [hc]
    have hN0 : 0 ≤ cfg.N_STEPS := by
      unfold Config.N_STEPS
      omega
    refine ⟨st, st, [], hrun, tick_handler_terminal cfg st t hterm, by omega, by omega,
      by omega, ?_, ?_, Or.inl rfl⟩
    · intro h
      omega
    · intro _
      exact hs

/-- C12 at the shipped configuration after 35 ticks, when Quad1 has just
ended: the state is at step 2 with no seconds left, and tick 36 keeps the step. -/
theorem C12_shipped_witness :
    ∃ st st' ev, run shipped State.init (List.replicate 35 (clock 9 0 0)) = some st ∧
      tick_handler shipped st (clock 9 0 35) = some (st', ev) ∧
      0 ≤ st.s_curStep ∧ st.s_curStep ≤ 5 ∧ 0 ≤ st.s_stepSecsLeft ∧
      (st'.s_curStep = st.s_curStep ∨ st'.s_curStep = st.s_curStep + 1) := by
  obtain ⟨st, st', ev, h1, h2, h3, h4, h5, _, _, h8⟩ :=
    C12_reachable_state_invariants shipped (by decide) (List.replicate 35 (clock 9 0 0))
      (clock 9 0 35)
  exact ⟨st, st', ev, h1, h2, h3, h4, h5, h8⟩

/-- C13: in a state at step `j` whose duration is 0 and whose
`s_stepSecsLeft` is 0, one call of `tick_handler` emits the cue of the step
and the display update, leaves `s_stepSecsLeft` at -1 and keeps `s_curStep`;
and, the counters being unbounded integers, after any further ticks `ts` the
run is still at step `j`, below the step count, with `s_stepSecsLeft` equal to
`-1 - ts.length`, so it never completes. -/
theorem C13_zero_duration_step_never_ends (cfg : Config) (st : State) (j : Nat) (s : Step)
    (hj : cfg.steps[j]? = some s) (hcur : st.s_curStep = j) (hsecs : s.secs = 0)
    (hleft : st.s_stepSecsLeft = 0) (t : Tm) (ts : List Tm) :
    ∃ st' ev, tick_handler cfg st t = some (st', ev) ∧
      ev = vibe_events s.vibe ++
        [Event.text_layer_set_text (snprintf 32 (s.descr ++ "\nSecs Left " ++ fmt_d 0))] ∧
      st'.s_stepSecsLeft = -1 ∧ st'.s_curStep = st.s_curStep ∧
      ∃ st'', run cfg st' ts = some st'' ∧ st''.s_curStep = st.s_curStep ∧
        st''.s_curStep < cfg.N_STEPS ∧ st''.s_stepSecsLeft = -1 - (ts.length : Int) := by
  have hlt := lt_length_of_step cfg.steps j s hj
  have hN : ¬ (st.s_curStep ≥ cfg.N_STEPS) := by
    unfold Config.N_STEPS
    omega
  have hstep : stepAt cfg.steps st.s_curStep = some s := by
    rw [hcur, stepAt_natCast, hj]
  have hfirst : ∃ st' ev, tick_handler cfg st t = some (st', ev) ∧
      ev = vibe_events s.vibe ++
        [Event.text_layer_set_text (snprintf 32 (s.descr ++ "\nSecs Left " ++ fmt_d 0))] ∧
      st'.s_stepSecsLeft = -1 ∧ st'.s_curStep = st.s_curStep := by
    unfold tick_handler
    rw [if_neg hN]
    simp only [hstep, hleft, hsecs, if_true]
    have h1 : ¬ ((0 : Int) - 1 = 0) := by omega
    simp only [if_neg h1, if_neg hN]
    exact ⟨_, _, rfl, rfl, rfl, rfl⟩
  obtain ⟨st', ev, hth, hev, hl, hc⟩ := hfirst
  obtain ⟨st'', hrun, hc2, hl2⟩ :=
    run_negative_left cfg j s hj ts st' (by rw [hc, hcur]) (by omega)
  refine ⟨st', ev, hth, hev, hl, hc, st'', hrun, by rw [hc2, hcur], ?_, by rw [hl2, hl]⟩
  rw [hc2]
  unfold Config.N_STEPS
  omega

/-- C13 on a table whose first step has duration 0: the first tick emits the
short pulse of that step, and 200 ticks later the run is still at step 0. -/
theorem C13_zero_step_witness :
    ∃ st' ev, tick_handler zeroStep State.init (clock 9 0 0) = some (st', ev) ∧
      ev = [Event.vibes_short_pulse, Event.text_layer_set_text "Pause\nSecs Left 0"] ∧
      st'.s_stepSecsLeft = -1 ∧
      ∃ st'', run zeroStep st' (List.replicate 200 (clock 9 0 1)) = some st'' ∧
        st''.s_curStep = 0 ∧ st''.s_stepSecsLeft = -201 := by
  obtain ⟨st', ev, h1, h2, h3, _, st'', h5, h6, _, h8⟩ :=
    C13_zero_duration_step_never_ends zeroStep State.init 0
      { secs := 0, descr := "Pause", vibe := EVibe.SHORT } (by decide) (by decide) (by decide)
      (by decide) (clock 9 0 0) (List.replicate 200 (clock 9 0 1))
  refine ⟨st', ev, h1, ?_, h3, st'', h5, ?_, ?_⟩
  · rw [h2]
    decide
  · rw [h6]
    decide
  · rw [h8]
    decide

/-- C14: in a run from the initial state over a step table with positive
durations, every processed tick leaves `s_stepsSecs` at 1 or more, and the
guard `s_stepsSecs == 0` of the provisional start-time capture holds before a
tick exactly when no tick was processed yet, that is on the first tick only.
When moreover `START_STEP_IX >= N_STEPS`, a run that ends with its completing
tick has recorded the time `t1` of its very first tick as start time, reports
the sum of all durations as elapsed seconds, and formats both in the heading. -/
theorem C14_provisional_start_time (cfg : Config) (hpos : positiveDurations cfg.steps)
    (pre : List Tm) (t : Tm) (hlt : (pre.length : Int) < totalSecs cfg.steps)
    (t1 : Tm) (rest : List Tm) :
    (∃ st st' ev, run cfg State.init pre = some st ∧ tick_handler cfg st t = some (st', ev) ∧
      1 ≤ st'.s_stepsSecs ∧ (st.s_stepsSecs = 0 ↔ pre = [])) ∧
    (cfg.START_STEP_IX ≥ cfg.N_STEPS →
      ((t1 :: rest).length : Int) = totalSecs cfg.steps →
      ∃ st, run cfg State.init (t1 :: rest) = some st ∧ st.s_curStep = cfg.N_STEPS ∧
        st.s_startTime = t1 ∧ st.s_stepsSecs = totalSecs cfg.steps ∧
        st.s_status_hdr_buffer =
          snprintf 32 ("Start: " ++ strftime_I_M_S t1 ++
            (if t1.tm_hour < 12 then "a" else "p") ++ " for " ++
            fmt_d (totalSecs cfg.steps) ++ "s\n")) := by
  constructor
  · obtain ⟨st, j, s, st', ev, hrun, hR, _, hth, _, hR'⟩ := next_tick cfg hpos pre t hlt
    have hl : (pre ++ [t]).length = pre.length + 1 := by simp
    have hz := elapsedAfter_eq_zero_iff cfg hpos (pre.length + 1)
    have hn := elapsedAfter_nonneg cfg hpos (pre.length + 1)
    refine ⟨st, st', ev, hrun, hth, ?_, ?_⟩
    · rw [hR'.elapsed, hl]
      have hne : elapsedAfter cfg (pre.length + 1) ≠ 0 := fun h => by
        have := hz.mp h
        omega
      omega
    · rw [hR.elapsed, elapsedAfter_eq_zero_iff cfg hpos pre.length]
      exact List.length_eq_zero
  · intro hge hlen
    obtain ⟨st, hrun, hR⟩ := run_reached cfg hpos (t1 :: rest) (by omega)
    have hnone := startTicks_of_ge cfg hge
    have htime : st.s_startTime = t1 := by
      rw [hR.start]
      unfold startTimeAfter
      rw [hnone]
      rfl
    have hsecs : st.s_stepsSecs = totalSecs cfg.steps := by
      rw [hR.elapsed]
      unfold elapsedAfter
      rw [hnone]
      exact hlen
    obtain ⟨hh, _⟩ := hR.heading hlen (by simp)
    refine ⟨st, hrun, (hR.done hlen).1, htime, hsecs, ?_⟩
    rw [hh, htime, hsecs, AmOrPm_eq]

/-- C14 on the shipped steps with starting-step index 5: the heading carries
the time of the first tick and 125 seconds. -/
theorem C14_late_start_witness :
    ∃ st, run lateStart State.init (clock 9 15 1 :: List.replicate 124 (clock 9 16 0)) = some st ∧
      st.s_startTime = clock 9 15 1 ∧ st.s_stepsSecs = 125 ∧
      st.s_status_hdr_buffer = "Start: 09:15:01a for 125s\n" := by
  obtain ⟨st, h1, _, h3, h4, h5⟩ :=
    (C14_provisional_start_time lateStart (by decide) [] (clock 9 15 1) (by decide)
      (clock 9 15 1) (List.replicate 124 (clock 9 16 0))).2 (by decide) (by decide)
  refine ⟨st, h1, h3, ?_, ?_⟩
  · rw [h4]
    decide
  · rw [h5]
    decide

/-- C15: for every configuration and any two lists of tick times of the
same length, the two runs of `tick_handler` from the initial state end with
the same `s_curStep`, `s_stepSecsLeft` and `s_stepsSecs`, and emit the same
events (pulses, sleeps, subscription changes and display texts) on every
tick; as this holds for every length, it holds after every tick. When the
durations are positive and the runs end with the completing tick, both
headings carry the same seconds figure, `elapsedAfter`, which is a count of
ticks and does not mention any tick time. -/
theorem C15_progress_ignores_tick_times (cfg : Config) (ts1 ts2 : List Tm)
    (hlen : ts1.length = ts2.length) :
    (run cfg State.init ts1).map State.counters = (run cfg State.init ts2).map State.counters ∧
    trace cfg State.init ts1 = trace cfg State.init ts2 ∧
    (positiveDurations cfg.steps → (ts1.length : Int) = totalSecs cfg.steps → 0 < ts1.length →
      ∃ st1 st2, run cfg State.init ts1 = some st1 ∧ run cfg State.init ts2 = some st2 ∧
        st1.s_stepsSecs = elapsedAfter cfg ts1.length ∧
        st2.s_stepsSecs = elapsedAfter cfg ts1.length ∧
        st1.s_status_hdr_buffer =
          snprintf 32 ("Start: " ++ strftime_I_M_S st1.s_startTime ++
            (AmOrPm "p" st1.s_startTime).2 ++ " for " ++
            fmt_d (elapsedAfter cfg ts1.length) ++ "s\n") ∧
        st2.s_status_hdr_buffer =
          snprintf 32 ("Start: " ++ strftime_I_M_S st2.s_startTime ++
            (AmOrPm "p" st2.s_startTime).2 ++ " for " ++
            fmt_d (elapsedAfter cfg ts1.length) ++ "s\n")) := by
  obtain ⟨h1, h2⟩ := run_counters cfg ts1 ts2 State.init State.init hlen rfl
  refine ⟨h1, h2, ?_⟩
  intro hpos hd hne
  obtain ⟨st1, hrun1, hR1⟩ := run_reached cfg hpos ts1 (by omega)
  obtain ⟨st2, hrun2, hR2⟩ := run_reached cfg hpos ts2 (by omega)
  have e1 := hR1.elapsed
  have e2 := hR2.elapsed
  rw [← hlen] at e2
  obtain ⟨hh1, _⟩ := hR1.heading hd hne
  obtain ⟨hh2, _⟩ := hR2.heading (by omega) (by omega)
  refine ⟨st1, st2, hrun1, hrun2, e1, e2, ?_, ?_⟩
  · rw [hh1, e1]
  · rw [hh2, e2]

/-- C15 at the shipped configuration: a run whose 125 ticks all carry the
time 09:00:00 and a run whose ticks carry other times have the same counters
and events, and the first still reports 120 seconds. -/
theorem C15_shipped_witness :
    (run shipped State.init (List.replicate 125 (clock 9 0 0))).map State.counters =
      (run shipped State.init
        (List.replicate 60 (clock 9 0 0) ++ List.replicate 65 (clock 17 30 0))).map
        State.counters ∧
    trace shipped State.init (List.replicate 125 (clock 9 0 0)) =
      trace shipped State.init
        (List.replicate 60 (clock 9 0 0) ++ List.replicate 65 (clock 17 30 0)) ∧
    (run shipped State.init (List.replicate 125 (clock 9 0 0))).map State.s_status_hdr_buffer =
      some "Start: 09:00:00a for 120s\n" := by
  obtain ⟨h1, h2, _⟩ :=
    C15_progress_ignores_tick_times shipped (List.replicate 125 (clock 9 0 0))
      (List.replicate 60 (clock 9 0 0) ++ List.replicate 65 (clock 17 30 0)) (by decide)
  exact ⟨h1, h2, by decide⟩

/-- C16: on the completing tick of a run from the initial state (positive
durations), when `msSleep > 0`, the events are the step cue, the completion
loop, the change of subscription and the display update, and the completion
loop is `nVibes` repetitions of the pulse of the configured type followed by
one sleep of `msSleep`. It therefore sleeps exactly `nVibes` times, for
`nVibes * msSleep` milliseconds in all, its last event is a sleep, and for
the type NONE it consists of the `nVibes` sleeps alone. -/
theorem C16_sleep_after_every_iteration (cfg : Config) (hpos : positiveDurations cfg.steps)
    (pre : List Tm) (t : Tm) (hlast : (pre.length : Int) + 1 = totalSecs cfg.steps)
    (hms : cfg.s_completion.msSleep > 0) :
    ∃ st st' ev cue txt, run cfg State.init pre = some st ∧
      tick_handler cfg st t = some (st', ev) ∧
      ev = cue ++ completion_loop cfg.s_completion ++
        [Event.tick_timer_service_unsubscribe,
         Event.tick_timer_service_subscribe TimeUnits.MINUTE_UNIT Handler.tick_handler_minute,
         Event.text_layer_set_text txt] ∧
      completion_loop cfg.s_completion =
        (List.replicate cfg.s_completion.nVibes.toNat
          (vibe_events cfg.s_completion.vibe ++
            [Event.psleep cfg.s_completion.msSleep])).flatten ∧
      sleepCount (completion_loop cfg.s_completion) = cfg.s_completion.nVibes.toNat ∧
      (0 ≤ cfg.s_completion.nVibes →
        (sleepCount (completion_loop cfg.s_completion) : Int) = cfg.s_completion.nVibes) ∧
      sleepMs (completion_loop cfg.s_completion) =
        (cfg.s_completion.nVibes.toNat : Int) * cfg.s_completion.msSleep ∧
      (0 < cfg.s_completion.nVibes →
        (completion_loop cfg.s_completion).getLast? =
          some (Event.psleep cfg.s_completion.msSleep)) ∧
      (cfg.s_completion.vibe = EVibe.NONE →
        completion_loop cfg.s_completion =
          List.replicate cfg.s_completion.nVibes.toNat
            (Event.psleep cfg.s_completion.msSleep)) := by
  obtain ⟨st, j, s, hrun, _, hin⟩ := before_tick cfg hpos pre (by omega)
  obtain ⟨st', ev, hth, _, _, _, _, h5⟩ := tick_handler_inStep cfg hpos pre.length st j s hin t
  rw [if_pos hlast] at h5
  have hcount := sleepCount_completion_iter cfg.s_completion hms cfg.s_completion.nVibes.toNat
  refine ⟨st, st', ev, _, _, hrun, hth, h5.2.2, ?_, hcount, ?_,
    sleepMs_completion_iter cfg.s_completion hms _, ?_, ?_⟩
  · unfold completion_loop
    rw [completion_iter_eq_flatten, completion_body_of_sleep cfg.s_completion hms]
  · intro h0
    unfold completion_loop
    rw [hcount]
    omega
  · intro hp
    obtain ⟨n, hn⟩ : ∃ n, cfg.s_completion.nVibes.toNat = n + 1 :=
      ⟨cfg.s_completion.nVibes.toNat - 1, by omega⟩
    obtain ⟨front, hf⟩ := completion_iter_ends_with_sleep cfg.s_completion hms n
    unfold completion_loop
    rw [hn, hf]
    simp
  · intro hv
    exact completion_iter_none cfg.s_completion hms hv _

/-- C16 at the shipped configuration: the completion loop of tick 125 is
Short, sleep 333, four times over; it sleeps 4 times, 1332 ms in all. -/
theorem C16_shipped_witness :
    completion_loop shipped.s_completion =
      [Event.vibes_short_pulse, Event.psleep 333, Event.vibes_short_pulse, Event.psleep 333,
       Event.vibes_short_pulse, Event.psleep 333, Event.vibes_short_pulse, Event.psleep 333] ∧
    sleepCount (completion_loop shipped.s_completion) = 4 ∧
    sleepMs (completion_loop shipped.s_completion) = 1332 ∧
    ∃ st st' ev, run shipped State.init (List.replicate 124 (clock 9 0 0)) = some st ∧
      tick_handler shipped st (clock 9 2 4) = some (st', ev) ∧
      ev = completion_loop shipped.s_completion ++
        [Event.tick_timer_service_unsubscribe,
         Event.tick_timer_service_subscribe TimeUnits.MINUTE_UNIT Handler.tick_handler_minute,
         Event.text_layer_set_text "Quad4\nSecs Left 1"] := by
  obtain ⟨st, st', ev, cue, txt, h1, h2, _, h4, h5, _, h7, _, _⟩ :=
    C16_sleep_after_every_iteration shipped (by decide) (List.replicate 124 (clock 9 0 0))
      (clock 9 2 4) (by decide) (by decide)
  refine ⟨?_, ?_, ?_, st, st', ev, h1, h2, ?_⟩
  · rw [h4]
    decide
  · rw [h5]
    decide
  · rw [h7]
    decide
  · have hn : nextTick shipped (List.replicate 124 (clock 9 0 0)) (clock 9 2 4) = some (st', ev) := by
      unfold nextTick
      rw [h1]
      exact h2
    have he : (nextTick shipped (List.replicate 124 (clock 9 0 0)) (clock 9 2 4)).map Prod.snd =
        some ev := by
      rw [hn]
      rfl
    exact Option.some.inj (he.symm.trans (by decide))

/-- C17: in the shipped run no formatted text is cut by its buffer.
Every tick before completion displays the untruncated text of a shipped step,
of at most 21 characters, the length of "Get Ready\nSecs Left 5", the text of
the first tick. When tick 6 carries the valid time `t0`, the heading after
tick 125 is the untruncated "Start: HH:MM:SSx for 120s" with its newline, 26
characters, and every later minute tick with a valid time displays the
untruncated heading followed by "Now: HH:MMy", 37 characters. In general, for
an elapsed figure `n`, the heading is left whole by its 32-byte buffer exactly
when the figure has at most 8 characters, as every `n` from 0 to 99999999 has. -/
theorem C17_no_truncation_in_shipped_run (pre : List Tm) (t : Tm) (hlt : pre.length < 125)
    (pre5 : List Tm) (t0 : Tm) (mid : List Tm) (h5 : pre5.length = 5) (h119 : mid.length = 119)
    (hv0 : t0.valid) (ms : List Tm) (tm : Tm) (hvm : tm.valid) (n : Int) :
    (∃ st st' ev s r, run shipped State.init pre = some st ∧
      tick_handler shipped st t = some (st', ev) ∧ s ∈ steps ∧
      ev.getLast? = some (Event.text_layer_set_text (s.descr ++ "\nSecs Left " ++ fmt_d r)) ∧
      (s.descr ++ "\nSecs Left " ++ fmt_d r).length ≤ 21) ∧
    ("Get Ready\nSecs Left 5".length = 21 ∧
      (nextTick shipped [] t).map Prod.snd =
        some [Event.text_layer_set_text "Get Ready\nSecs Left 5"]) ∧
    (∃ st, run shipped State.init (pre5 ++ t0 :: mid) = some st ∧
      st.s_status_hdr_buffer =
        "Start: " ++ strftime_I_M_S t0 ++ (if t0.tm_hour < 12 then "a" else "p") ++
          " for 120s\n" ∧
      st.s_status_hdr_buffer.length = 26 ∧
      (tick_handler_minute (run_minute st ms) tm).2 =
        [Event.text_layer_set_text (st.s_status_hdr_buffer ++ "Now: " ++ strftime_I_M tm ++
          (AmOrPm (run_minute st ms).xm tm).2)] ∧
      (st.s_status_hdr_buffer ++ "Now: " ++ strftime_I_M tm ++
        (AmOrPm (run_minute st ms).xm tm).2).length = 37) ∧
    ((snprintf 32 ("Start: " ++ strftime_I_M_S t0 ++ (if t0.tm_hour < 12 then "a" else "p") ++
          " for " ++ fmt_d n ++ "s\n") =
        "Start: " ++ strftime_I_M_S t0 ++ (if t0.tm_hour < 12 then "a" else "p") ++
          " for " ++ fmt_d n ++ "s\n" ↔ (fmt_d n).length ≤ 8) ∧
      (0 ≤ n → n < 10 ^ 8 → (fmt_d n).length ≤ 8)) := by
  have hpos : positiveDurations shipped.steps := by decide
  have htotal : totalSecs shipped.steps = 125 := by decide
  have hind : (if t0.tm_hour < 12 then "a" else "p").length = 1 := by
    split_ifs <;> rfl
  refine ⟨?_, ⟨rfl, ?_⟩, ?_, ?_, ?_⟩
  · obtain ⟨st, j, s, hrun, _, hin⟩ := before_tick shipped hpos pre (by rw [htotal]; omega)
    obtain ⟨st', ev, hth, _, _, _, _, h5'⟩ :=
      tick_handler_inStep shipped hpos pre.length st j s hin t
    have hsecs := secs_pos_of_step shipped.steps hpos j s hin.hj
    have hmem : s ∈ steps := List.getElem?_mem hin.hj
    have hlo := hin.hlo
    have hhi := hin.hhi
    have hlen := shipped_text_length s hmem (prefixSecs shipped.steps j + s.secs - pre.length)
      (by omega) (by omega)
    have hfit := snprintf_of_fits 32
      (s.descr ++ "\nSecs Left " ++ fmt_d (prefixSecs shipped.steps j + s.secs - pre.length))
      (by omega)
    rw [hfit] at h5'
    refine ⟨st, st', ev, s, _, hrun, hth, hmem, ?_, hlen⟩
    by_cases hlast : (pre.length : Int) + 1 = totalSecs shipped.steps
    · rw [if_pos hlast] at h5'
      rw [h5'.2.2]
      simp
    · rw [if_neg hlast] at h5'
      rw [h5'.2.2]
      simp
  · have e := (run_counters shipped [t] [clock 9 0 0] State.init State.init rfl rfl).2
    simp only [trace] at e
    unfold nextTick
    simp only [run]
    cases h1 : tick_handler shipped State.init t with
    | none =>
      rw [h1] at e
      revert e
      decide
    | some r1 =>
      rw [h1] at e
      simp only [Option.map_some', Option.some.injEq]
      have e2 : some [r1.2] = some [[Event.text_layer_set_text "Get Ready\nSecs Left 5"]] :=
        e.trans (by decide)
      simpa using e2
  · have hlen : ((pre5 ++ t0 :: mid).length : Int) = totalSecs shipped.steps := by
      rw [htotal]
      simp only [List.length_append, List.length_cons, h5, h119]
      rfl
    have hpre : (pre5.length : Int) = prefixSecs shipped.steps 1 := by
      have e : prefixSecs shipped.steps 1 = 5 := by decide
      rw [e, h5]
      rfl
    obtain ⟨st, hrun, _, _, hsecs, hhdr, hxm⟩ :=
      completed_run shipped hpos 1 { secs := 30, descr := "Quad1", vibe := EVibe.LONG }
        rfl (by decide) pre5 t0 mid hpre hlen
    have h120 : st.s_stepsSecs = 120 := by
      rw [hsecs]
      decide
    rw [h120, shipped_heading_fits t0 hv0] at hhdr
    have hl26 : st.s_status_hdr_buffer.length = 26 := by
      rw [hhdr]
      simp only [String.length_append, strftime_I_M_S_length t0 hv0, hind]
      rfl
    have hx : st.xm = "a" ∨ st.xm = "p" := by
      rw [hxm]
      split_ifs
      · exact Or.inl rfl
      · exact Or.inr rfl
    obtain ⟨hk1, hk2⟩ := run_minute_keeps ms st hx
    obtain ⟨ht1, ht2⟩ := tick_handler_minute_text (run_minute st ms) tm hvm (by rw [hk1]; omega) hk2
    rw [hk1] at ht1 ht2
    refine ⟨st, hrun, hhdr, hl26, ht1, ?_⟩
    rw [ht2, hl26]
  · rw [snprintf_eq_iff 32 _ (by decide)]
    have h1 : "Start: ".length = 7 := rfl
    have h2 : " for ".length = 5 := rfl
    have h3 : "s\n".length = 2 := rfl
    simp only [String.length_append, strftime_I_M_S_length t0 hv0, hind, h1, h2, h3]
    omega
  · intro h0 h8
    exact fmt_d_length_le n 8 (by decide) h0 h8

/-- C17 on a shipped run whose tick 6 carries 11:58:05: tick 50 displays a
whole text, the heading is whole, and the minute tick of 13:07 after two
earlier minute ticks displays a whole text of 37 characters. -/
theorem C17_shipped_witness :
    (∃ st, run shipped State.init
        (List.replicate 5 (clock 11 58 0) ++ clock 11 58 5 :: List.replicate 119 (clock 11 59 0)) =
          some st ∧
      st.s_status_hdr_buffer = "Start: 11:58:05a for 120s\n" ∧
      (tick_handler_minute (run_minute st [clock 12 0 0, clock 12 1 0]) (clock 13 7 0)).2 =
        [Event.text_layer_set_text (st.s_status_hdr_buffer ++ "Now: " ++
          strftime_I_M (clock 13 7 0) ++
          (AmOrPm (run_minute st [clock 12 0 0, clock 12 1 0]).xm (clock 13 7 0)).2)]) ∧
    (fmt_d 99999999).length ≤ 8 := by
  obtain ⟨_, _, ⟨st, h1, h2, _, h4, _⟩, _, h6⟩ :=
    C17_no_truncation_in_shipped_run (List.replicate 49 (clock 11 58 0)) (clock 11 58 50)
      (by decide) (List.replicate 5 (clock 11 58 0)) (clock 11 58 5)
      (List.replicate 119 (clock 11 59 0)) (by decide) (by decide) (by decide)
      [clock 12 0 0, clock 12 1 0] (clock 13 7 0) (by decide) 99999999
  refine ⟨⟨st, h1, ?_, h4⟩, h6 (by decide) (by decide)⟩
  rw [h2]
  decide

/-- C11 (as stated, refuted): two configurations that fail the check the
specification asks for are not rejected. Startup is the same as for any
configuration and subscribes `tick_handler`; the first tick of the
configuration with a negative duration, a negative pulse count and a
starting index outside the list is processed, with a pulse and a display
update, and the first tick of the configuration without steps is processed as
a no-op. -/
theorem C11_no_startup_validation_counterexample :
    ¬ configValid misconfigured ∧ ¬ configValid noSteps ∧
    init State.init =
      (State.init, [Event.text_layer_set_text "00:00",
        Event.tick_timer_service_subscribe TimeUnits.SECOND_UNIT Handler.tick_handler]) ∧
    (tick_handler misconfigured (init State.init).1 (clock 9 0 0)).map Prod.snd =
      some [Event.vibes_long_pulse, Event.text_layer_set_text "Bad\nSecs Left -3"] ∧
    tick_handler noSteps (init State.init).1 (clock 9 0 0) = some (State.init, []) := by
  decide

/-- C11 (amended): startup validates nothing. For every configuration `init`
does the same thing, loading the window and subscribing `tick_handler` to
second ticks without changing a program variable, and the first tick is
processed: with an empty step list it is a no-op by the guard of lines 69-70,
and with a non-empty one it displays the first step with its duration as
seconds left, whatever the durations, the starting-step index and the pulse
count. A pulse count that is negative or zero makes the completion loop emit
nothing. -/
theorem C11_startup_accepts_every_configuration (cfg : Config) (t : Tm) :
    init State.init =
      (State.init, [Event.text_layer_set_text "00:00",
        Event.tick_timer_service_subscribe TimeUnits.SECOND_UNIT Handler.tick_handler]) ∧
    (cfg.steps = [] → tick_handler cfg (init State.init).1 t = some (State.init, [])) ∧
    (∀ s rest, cfg.steps = s :: rest →
      ∃ st' ev, tick_handler cfg (init State.init).1 t = some (st', ev) ∧
        ev.getLast? = some (Event.text_layer_set_text
          (snprintf 32 (s.descr ++ "\nSecs Left " ++ fmt_d s.secs)))) ∧
    (cfg.s_completion.nVibes ≤ 0 → completion_loop cfg.s_completion = []) := by
  refine ⟨rfl, ?_, ?_, ?_⟩
  · intro hnil
    apply tick_handler_terminal
    show (0 : Int) ≥ cfg.N_STEPS
    unfold Config.N_STEPS
    rw [hnil]
    simp
  · intro s rest hs
    have hN : ¬ ((init State.init).1.s_curStep ≥ cfg.N_STEPS) := by
      show ¬ ((0 : Int) ≥ cfg.N_STEPS)
      unfold Config.N_STEPS
      rw [hs]
      simp only [List.length_cons]
      push_cast
      omega
    have hstep : stepAt cfg.steps (init State.init).1.s_curStep = some s := by
      show stepAt cfg.steps ((0 : Nat) : Int) = some s
      rw [stepAt_natCast, hs]
      simp
    have hl : (init State.init).1.s_stepSecsLeft = 0 := rfl
    unfold tick_handler
    rw [if_neg hN]
    simp only [hstep, hl, if_true]
    split_ifs <;> exact ⟨_, _, rfl, by simp⟩
  · intro hn
    unfold completion_loop
    have h0 : cfg.s_completion.nVibes.toNat = 0 := by omega
    rw [h0]
    rfl

/-- C11 (amended) at the shipped configuration: the first tick after startup
displays the Get Ready step with 5 seconds left. -/
theorem C11_shipped_witness :
    ∃ st' ev, tick_handler shipped (init State.init).1 (clock 9 0 0) = some (st', ev) ∧
      ev.getLast? = some (Event.text_layer_set_text "Get Ready\nSecs Left 5") := by
  obtain ⟨st', ev, h1, h2⟩ :=
    (C11_startup_accepts_every_configuration shipped (clock 9 0 0)).2.2.1
      { secs := 5, descr := "Get Ready", vibe := EVibe.NONE } _ rfl
  refine ⟨st', ev, h1, ?_⟩
  rw [h2]
  decide

end PebbleSequenceTimer
